import Mathlib

/-!
# Realtime messaging server (`src/server/server.js`)

A shallow embedding of the message pipeline, the read tracker, the typing
notifier, the presence registry and the chat-creation route, and of the typing
code of the client (`src/client/src/App.jsx`), followed by the properties
proved about them.

Conventions of the embedding:

* a Mongo `ObjectId`, a socket id and a `Date.now()` value are natural numbers;
* a collection is the list of its documents in insertion order;
* the `onlineUsers` map is the list of its entries in insertion order, as a
  JavaScript `Map` iterates them;
* every handler is one atomic transition; the callback handed to `setTimeout`
  by `message:send` is a transition of its own, fired later; the two halves of
  `message:send` around its save (`sendSaved`, `sendCompleted`) are also given
  on their own, for sends that overlap;
* a persistence call that rejects is an explicit argument of the handler
  (`fault`), so both branches of each `try`/`catch` are present;
* whatever the server emits is appended to `State.emitted`.
-/

namespace Messaging

abbrev Id := Nat
abbrev SocketId := Nat
abbrev Time := Nat

/-- The `status` enum of `messageSchema`. -/
inductive Status where
  | sent
  | delivered
  | read
  deriving DecidableEq, Repr

/-- Position of a status in the lifecycle `sent`, `delivered`, `read`. -/
def Status.rank : Status → Nat
  | .sent => 0
  | .delivered => 1
  | .read => 2

/-- The fields of `userSchema` that the realtime handlers read or write. -/
structure User where
  id : Id
  name : String
  avatar : String
  online : Bool
  lastSeen : Time
  deriving DecidableEq, Repr

/-- A document of `messageSchema`. -/
structure Message where
  id : Id
  chatId : Id
  senderId : Id
  text : String
  status : Status
  createdAt : Time
  deriving DecidableEq, Repr

/-- A document of `chatSchema`. -/
structure Chat where
  id : Id
  participants : List Id
  isGroup : Bool
  groupName : Option String
  groupAvatar : Option String
  lastMessage : Option Id
  updatedAt : Time
  deriving DecidableEq, Repr

/-- Addressee of an emit: `io.emit`, `io.to(room).emit`, `socket.to(room).emit`. -/
inductive Target where
  | all
  | room (r : Id)
  | roomExcept (r : Id) (sender : SocketId)
  deriving DecidableEq, Repr

/-- Event name together with its payload. -/
inductive Payload where
  | userStatus (userId : Id) (online : Bool)
  | messageReceive (m : Message) (sender : Option (String × String))
  | messageStatus (messageId : Id) (status : Status)
  | messagesRead (messageIds : List Id)
  | typingDisplay (userId : Id) (userName : String)
  | typingHide (userId : Id)
  deriving DecidableEq, Repr

structure Emit where
  target : Target
  payload : Payload
  deriving DecidableEq, Repr

/-- Server state: the three collections, the `onlineUsers` map, the room
membership kept by the transport, the delivery confirmations still waiting in
`setTimeout`, the events emitted so far, and counters for `console.error`
calls and for rejections that no handler caught. -/
structure State where
  users : List User
  messages : List Message
  chats : List Chat
  onlineUsers : List (Id × SocketId)
  rooms : List (SocketId × Id)
  timers : List (Id × Id)
  emitted : List Emit
  logged : Nat
  unhandled : Nat
  deriving DecidableEq, Repr

/-- A freshly started server over a given user collection. -/
def State.start (users : List User) : State :=
  { users := users, messages := [], chats := [], onlineUsers := [], rooms := [],
    timers := [], emitted := [], logged := 0, unhandled := 0 }

/-! ## Collections -/

/-- `User.findByIdAndUpdate(id, update)`. -/
def updateUser (users : List User) (id : Id) (f : User → User) : List User :=
  users.map fun u => if u.id = id then f u else u

/-- `Chat.findByIdAndUpdate(id, { lastMessage, updatedAt })`. -/
def updateChat (chats : List Chat) (id : Id) (lastMessage : Id) (now : Time) : List Chat :=
  chats.map fun c =>
    if c.id = id then { c with lastMessage := some lastMessage, updatedAt := now } else c

/-- The update sent by `message.save()` in the timer callback: only the
modified path `status` is written, to the document with that `_id`. -/
def saveStatus (messages : List Message) (id : Id) (st : Status) : List Message :=
  messages.map fun m => if m.id = id then { m with status := st } else m

/-- `Message.updateMany({ chatId, _id: { $in: messageIds } }, { status: 'read' })`. -/
def updateManyRead (messages : List Message) (chatId : Id) (messageIds : List Id) :
    List Message :=
  messages.map fun m =>
    if m.chatId = chatId ∧ m.id ∈ messageIds then { m with status := .read } else m

/-- The documents selected by the filter of `updateManyRead`. -/
def matchedByRead (messages : List Message) (chatId : Id) (messageIds : List Id) :
    List Message :=
  messages.filter fun m => m.chatId = chatId ∧ m.id ∈ messageIds

/-- Stored status of the message with a given id. -/
def statusOf (messages : List Message) (id : Id) : Option Status :=
  (messages.find? fun m => m.id = id).map (·.status)

/-- `populate('senderId', 'name avatar')`. -/
def populateSender (users : List User) (senderId : Id) : Option (String × String) :=
  (users.find? fun u => u.id = senderId).map fun u => (u.name, u.avatar)

/-! ## The `onlineUsers` map -/

/-- `onlineUsers.set(k, v)`: an existing key keeps its place. -/
def mapSet (m : List (Id × SocketId)) (k : Id) (v : SocketId) : List (Id × SocketId) :=
  if m.any (fun e => e.1 = k) then m.map (fun e => if e.1 = k then (k, v) else e)
  else m ++ [(k, v)]

/-- `onlineUsers.delete(k)`. -/
def mapDelete (m : List (Id × SocketId)) (k : Id) : List (Id × SocketId) :=
  m.filter fun e => e.1 ≠ k

/-- `onlineUsers.get(k)`. -/
def mapGet (m : List (Id × SocketId)) (k : Id) : Option SocketId :=
  (m.find? fun e => e.1 = k).map (·.2)

/-! ## Realtime handlers -/

/-- `socket.on('user:online')`. The map is written before the first `await`;
the handler has no `try`, so a rejected update is an unhandled rejection. -/
def userOnline (s : State) (sock : SocketId) (userId : Id) (fault : Bool) : State :=
  let s1 := { s with onlineUsers := mapSet s.onlineUsers userId sock }
  if fault then { s1 with unhandled := s1.unhandled + 1 }
  else
    { s1 with
      users := updateUser s1.users userId fun u => { u with online := true }
      emitted := s1.emitted ++ [⟨.all, .userStatus userId true⟩] }

/-- Payload of `message:send`. -/
structure SendData where
  chatId : Id
  senderId : Id
  text : String
  deriving DecidableEq, Repr

/-- The persistence call of `message:send` that rejects, if any. -/
inductive SendFault where
  | save
  | populate
  | chatUpdate
  deriving DecidableEq, Repr

/-- `socket.on('message:send')`. `text` is `required`, so `message.save()`
rejects an empty text. Whatever rejects, the `catch` logs and nothing after
the rejected call runs. -/
def messageSend (s : State) (d : SendData) (newId : Id) (tCreate tUpdate : Time)
    (fault : Option SendFault) : State :=
  let message : Message :=
    { id := newId, chatId := d.chatId, senderId := d.senderId, text := d.text,
      status := .sent, createdAt := tCreate }
  if d.text = "" ∨ fault = some .save then { s with logged := s.logged + 1 }
  else
    let s1 := { s with messages := s.messages ++ [message] }
    if fault = some .populate then { s1 with logged := s1.logged + 1 }
    else if fault = some .chatUpdate then { s1 with logged := s1.logged + 1 }
    else
      { s1 with
        chats := updateChat s1.chats d.chatId newId tUpdate
        emitted := s1.emitted ++
          [⟨.room d.chatId, .messageReceive message (populateSender s1.users d.senderId)⟩]
        timers := s1.timers ++ [(newId, d.chatId)] }

/-- The callback of `setTimeout(..., 500)` for the message `messageId` sent to
`room`: it writes `delivered` and emits `message:status`. The callback has no
`try`, so a rejected save is an unhandled rejection. -/
def deliveryConfirmation (s : State) (messageId room : Id) (fault : Bool) : State :=
  if fault then { s with unhandled := s.unhandled + 1 }
  else
    { s with
      messages := saveStatus s.messages messageId .delivered
      emitted := s.emitted ++ [⟨.room room, .messageStatus messageId .delivered⟩] }

/-- A waiting delivery confirmation fires: the first one scheduled for
`messageId`. Nothing happens when none is waiting. -/
def timerFire (s : State) (messageId : Id) (fault : Bool) : State :=
  match s.timers.find? fun t => t.1 = messageId with
  | none => s
  | some t =>
    deliveryConfirmation { s with timers := s.timers.erase t } t.1 t.2 fault

/-- `socket.on('chat:join')`. -/
def chatJoin (s : State) (sock : SocketId) (chatId : Id) : State :=
  if (sock, chatId) ∈ s.rooms then s else { s with rooms := s.rooms ++ [(sock, chatId)] }

/-- Payload of `message:read`. -/
structure ReadData where
  chatId : Id
  messageIds : List Id
  deriving DecidableEq, Repr

/-- `socket.on('message:read')`. -/
def messageRead (s : State) (d : ReadData) (fault : Bool) : State :=
  if fault then { s with logged := s.logged + 1 }
  else
    { s with
      messages := updateManyRead s.messages d.chatId d.messageIds
      emitted := s.emitted ++ [⟨.room d.chatId, .messagesRead d.messageIds⟩] }

/-- Payload of `typing:start` and `typing:stop`. -/
structure TypingData where
  chatId : Id
  userId : Id
  userName : String
  deriving DecidableEq, Repr

/-- `socket.on('typing:start')`. -/
def typingStart (s : State) (sock : SocketId) (d : TypingData) : State :=
  { s with emitted := s.emitted ++
      [⟨.roomExcept d.chatId sock, .typingDisplay d.userId d.userName⟩] }

/-- `socket.on('typing:stop')`. -/
def typingStop (s : State) (sock : SocketId) (d : TypingData) : State :=
  { s with emitted := s.emitted ++ [⟨.roomExcept d.chatId sock, .typingHide d.userId⟩] }

/-- The `for ... of onlineUsers.entries()` loop of the disconnect handler,
over the entries still to visit: the first entry bound to `sock` is deleted,
its user is stamped offline, the status is emitted, and the loop breaks. -/
def disconnectLoop (sock : SocketId) (now : Time) (fault : Bool) :
    List (Id × SocketId) → State → State
  | [], s => s
  | (userId, socketId) :: rest, s =>
    if socketId = sock then
      let s1 := { s with onlineUsers := mapDelete s.onlineUsers userId }
      if fault then { s1 with unhandled := s1.unhandled + 1 }
      else
        { s1 with
          users := updateUser s1.users userId fun u =>
            { u with online := false, lastSeen := now }
          emitted := s1.emitted ++ [⟨.all, .userStatus userId false⟩] }
    else disconnectLoop sock now fault rest s

/-- `socket.on('disconnect')`; the transport has dropped the socket's rooms. -/
def disconnect (s : State) (sock : SocketId) (now : Time) (fault : Bool) : State :=
  let s1 := { s with rooms := s.rooms.filter fun r => r.1 ≠ sock }
  disconnectLoop sock now fault s1.onlineUsers s1

/-- Whether a connected socket `t` receives an emit, given the room table. -/
def receives (rooms : List (SocketId × Id)) (t : SocketId) (e : Emit) : Bool :=
  match e.target with
  | .all => true
  | .room r => decide ((t, r) ∈ rooms)
  | .roomExcept r sender => decide (t ≠ sender) && decide ((t, r) ∈ rooms)

/-! ## `POST /api/chats` -/

/-- Body of the request. -/
structure ChatRequest where
  participants : List Id
  isGroup : Bool
  groupName : Option String
  groupAvatar : Option String
  deriving DecidableEq, Repr

/-- The persistence call of the route that rejects, if any. -/
inductive ChatFault where
  | findOne
  | save
  | populate
  deriving DecidableEq, Repr

/-- What the route answers: `res.json(existingChat)`, `res.status(201).json(chat)`
or `res.status(500)`. -/
inductive ChatResponse where
  | existing (c : Chat)
  | created (c : Chat)
  | error
  deriving DecidableEq, Repr

/-- The filter `{ isGroup: false, participants: { $all: ps, $size: 2 } }`;
`$all` with an empty array selects nothing. -/
def directMatch (ps : List Id) (c : Chat) : Bool :=
  !c.isGroup && decide (c.participants.length = 2) && !ps.isEmpty &&
    ps.all fun p => decide (p ∈ c.participants)

/-- `app.post('/api/chats')`. -/
def createChat (s : State) (req : ChatRequest) (newId : Id) (now : Time)
    (fault : Option ChatFault) : State × ChatResponse :=
  let chat : Chat :=
    { id := newId, participants := req.participants, isGroup := req.isGroup,
      groupName := req.groupName, groupAvatar := req.groupAvatar,
      lastMessage := none, updatedAt := now }
  let create : State × ChatResponse :=
    if fault = some .save then (s, .error)
    else
      let s1 := { s with chats := s.chats ++ [chat] }
      if fault = some .populate then (s1, .error) else (s1, .created chat)
  if !req.isGroup then
    if fault = some .findOne then (s, .error)
    else
      match s.chats.find? (directMatch req.participants) with
      | some existingChat => (s, .existing existingChat)
      | none => create
  else create

/-! ## Runs -/

/-- One inbound event, or one timer firing. -/
inductive Event where
  | userOnline (sock : SocketId) (userId : Id) (fault : Bool)
  | messageSend (d : SendData) (newId : Id) (tCreate tUpdate : Time)
      (fault : Option SendFault)
  | timerFire (messageId : Id) (fault : Bool)
  | chatJoin (sock : SocketId) (chatId : Id)
  | messageRead (d : ReadData) (fault : Bool)
  | typingStart (sock : SocketId) (d : TypingData)
  | typingStop (sock : SocketId) (d : TypingData)
  | disconnect (sock : SocketId) (now : Time) (fault : Bool)
  | createChat (req : ChatRequest) (newId : Id) (now : Time) (fault : Option ChatFault)
  deriving DecidableEq, Repr

/-- The transition taken on an event. -/
def step (s : State) : Event → State
  | .userOnline sock userId fault => userOnline s sock userId fault
  | .messageSend d newId tCreate tUpdate fault => messageSend s d newId tCreate tUpdate fault
  | .timerFire messageId fault => timerFire s messageId fault
  | .chatJoin sock chatId => chatJoin s sock chatId
  | .messageRead d fault => messageRead s d fault
  | .typingStart sock d => typingStart s sock d
  | .typingStop sock d => typingStop s sock d
  | .disconnect sock now fault => disconnect s sock now fault
  | .createChat req newId now fault => (createChat s req newId now fault).1

/-- The state after a sequence of events. -/
def run (s : State) : List Event → State
  | [] => s
  | e :: es => run (step s e) es

/-- No persistence call of the event rejects. -/
def Event.succeeds : Event → Bool
  | .userOnline _ _ fault => !fault
  | .messageSend _ _ _ _ fault => fault.isNone
  | .timerFire _ fault => !fault
  | .messageRead _ fault => !fault
  | .disconnect _ _ fault => !fault
  | .createChat _ _ _ fault => fault.isNone
  | _ => true

/-- The `ObjectId` generated for a new document is new: no stored document of
its collection has it and no stored message refers to it as its chat. -/
def Event.fresh (s : State) : Event → Prop
  | .messageSend _ newId _ _ _ =>
    (∀ m ∈ s.messages, m.id ≠ newId) ∧ ∀ t ∈ s.timers, t.1 ≠ newId
  | .createChat _ newId _ _ =>
    (∀ c ∈ s.chats, c.id ≠ newId) ∧ ∀ m ∈ s.messages, m.chatId ≠ newId
  | _ => True

/-- Every event of a run generates new ids where it generates any. -/
def FreshRun : State → List Event → Prop
  | _, [] => True
  | s, e :: es => e.fresh s ∧ FreshRun (step s e) es


/-! ## Vocabulary of the properties -/

/-- The event acts on the stored status of message `messageId` of chat
`chatId`: its delivery confirmation fires, or a `message:read` names it
together with its chat. -/
def Event.touches (messageId chatId : Id) : Event → Prop
  | .timerFire mid _ => mid = messageId
  | .messageRead d _ => d.chatId = chatId ∧ messageId ∈ d.messageIds
  | _ => False

/-- The first stored message with id `messageId` belongs to chat `chatId` and
has status `st`. -/
def StoredWith (s : State) (messageId chatId : Id) (st : Status) : Prop :=
  ∃ m, s.messages.find? (fun m => m.id = messageId) = some m ∧
    m.chatId = chatId ∧ m.status = st

/-- A delivery confirmation for `messageId` is waiting. -/
def Pending (s : State) (messageId : Id) : Prop :=
  ∃ t ∈ s.timers, t.1 = messageId

/-- Id of the most recently created message of chat `chatId`: the last one,
in insertion order, whose `chatId` is that chat. -/
def lastMessageOf (messages : List Message) (chatId : Id) : Option Id :=
  ((messages.filter fun m => m.chatId = chatId).getLast?).map (·.id)

/-- Every stored chat refers to the most recently created of its messages, and
to none when it has no message. -/
def LastMessageInv (s : State) : Prop :=
  ∀ c ∈ s.chats, c.lastMessage = lastMessageOf s.messages c.id

/-- A run used to exercise the last-message reference: a direct chat is
created, two messages are sent to it, and the first confirmation fires. -/
def twoSends : List Event :=
  [.createChat ⟨[1, 2], false, none, none⟩ 5 0 none,
   .messageSend ⟨5, 1, "a"⟩ 10 1 1 none,
   .messageSend ⟨5, 2, "b"⟩ 11 2 2 none,
   .timerFire 10 false]

/-- A non-group conversation of the pair `a`, `b`: its participants are the
two users, in either order. -/
def isDirectOf (a b : Id) (c : Chat) : Bool :=
  decide (c.isGroup = false ∧ (c.participants = [a, b] ∨ c.participants = [b, a]))

/-- No pair of users has two non-group conversations. -/
def DirectUnique (chats : List Chat) : Prop :=
  ∀ a b, chats.countP (isDirectOf a b) ≤ 1

/-- Two stored users, both offline, last seen at time `0`. -/
def twoUsers : List User :=
  [⟨1, "ada", "a", false, 0⟩, ⟨2, "bob", "b", false, 0⟩]

/-- One socket announces two users and then disconnects. -/
def sharedSocket : List Event :=
  [.userOnline 7 1 false, .userOnline 7 2 false, .disconnect 7 100 false]

/-- Two chats with one message each: message `10` in chat `1`, message `11`
in chat `2`. -/
def twoChats : List Event :=
  [.messageSend ⟨1, 2, "a"⟩ 10 0 0 none, .messageSend ⟨2, 3, "b"⟩ 11 1 1 none]

/-- The trace holds a `message:receive` event that published message
`messageId`, with status `sent`, to the room of its chat `room`. -/
def Published (trace : List Emit) (messageId room : Id) : Prop :=
  ∃ m sender, (⟨.room room, .messageReceive m sender⟩ : Emit) ∈ trace ∧
    m.id = messageId ∧ m.chatId = room ∧ m.status = .sent

/-- Every `message:status` event with status `delivered` comes, in the trace,
after the `message:receive` event of the same message to the same room. -/
def DeliveredAfterReceive (trace : List Emit) : Prop :=
  ∀ before after messageId room,
    trace = before ++ (⟨.room room, .messageStatus messageId .delivered⟩ : Emit) :: after →
    Published before messageId room

/-- The trace is ordered and every waiting confirmation belongs to a message
already published. -/
def TraceInv (s : State) : Prop :=
  DeliveredAfterReceive s.emitted ∧ ∀ t ∈ s.timers, Published s.emitted t.1 t.2

/-- The emit is a `message:status` event. -/
def Emit.isStatus (e : Emit) : Bool :=
  match e.payload with
  | .messageStatus _ _ => true
  | _ => false

/-- Every stored user is flagged online exactly when the registry has an entry
for its id. -/
def PresenceInv (s : State) : Prop :=
  ∀ x ∈ s.users, (x.online = true ↔ ∃ c, (x.id, c) ∈ s.onlineUsers)

/-! ## The client (`src/client/src/App.jsx`) -/

/-- What the client sends on its socket from the handlers modelled here. -/
inductive ClientEmit where
  | chatJoin (chatId : Id)
  | messageSend (chatId senderId : Id) (text : String)
  | typingStart (chatId userId : Id) (userName : String)
  | typingStop (chatId userId : Id)
  deriving DecidableEq, Repr

/-- The part of the component state that the typing code reads or writes:
`currentUser` (id and name), `selectedChat`, the input `message`, the
`isTyping` indicator, the timeout held by `typingTimeoutRef` (with the chat
and user ids its callback closed over), and what has been sent. -/
structure Client where
  currentUser : Option (Id × String)
  selectedChat : Option Id
  message : String
  isTyping : Bool
  typingTimeout : Option (Id × Id)
  sent : List ClientEmit
  deriving DecidableEq, Repr

/-- What can happen to the client: a socket listener runs, a user-interface
handler runs, or the timeout of `handleTyping` fires. `otherListener` stands
for the listeners of `connect`, `message:receive`, `message:status`,
`messages:read` and `user:status`, which only touch the message and chat
lists. -/
inductive ClientEvent where
  | typingDisplay
  | typingHide
  | otherListener
  | handleSelectChat (chatId : Id)
  | handleTyping (value : String)
  | typingTimeoutFires
  | handleSendMessage
  deriving DecidableEq, Repr

/-- One step of the client. `setIsTyping` is called by the `typing:display`
and `typing:hide` listeners and nowhere else; the only `setTimeout` is the one
of `handleTyping`, whose callback emits `typing:stop`. -/
def clientStep (c : Client) : ClientEvent → Client
  | .typingDisplay => { c with isTyping := true }
  | .typingHide => { c with isTyping := false }
  | .otherListener => c
  | .handleSelectChat chatId =>
    { c with selectedChat := some chatId, sent := c.sent ++ [.chatJoin chatId] }
  | .handleTyping value =>
    let c1 := { c with message := value }
    if value = "" then c1
    else
      match c1.selectedChat, c1.currentUser with
      | some chatId, some (userId, userName) =>
        { c1 with
          sent := c1.sent ++ [.typingStart chatId userId userName]
          typingTimeout := some (chatId, userId) }
      | _, _ => c1
  | .typingTimeoutFires =>
    match c.typingTimeout with
    | none => c
    | some (chatId, userId) =>
      { c with sent := c.sent ++ [.typingStop chatId userId], typingTimeout := none }
  | .handleSendMessage =>
    if c.message.trim = "" then c
    else
      match c.selectedChat, c.currentUser with
      | some chatId, some (userId, _) =>
        { c with
          message := ""
          sent := c.sent ++
            [.messageSend chatId userId c.message.trim, .typingStop chatId userId] }
      | _, _ => c

/-- The client after a sequence of events. -/
def clientRun (c : Client) : List ClientEvent → Client
  | [] => c
  | e :: es => clientRun (clientStep c e) es

/-- A client that has logged in as user `1` and opened chat `5`. -/
def readerClient : Client :=
  { currentUser := some (1, "ada"), selectedChat := some 5, message := "",
    isTyping := false, typingTimeout := none, sent := [] }

/-- Two participant lists name the same set of identities. -/
def sameIdentities (ps qs : List Id) : Bool :=
  ps.all (fun p => decide (p ∈ qs)) && qs.all (fun q => decide (q ∈ ps))

/-- The handler of `message:send` up to the point where `await message.save()`
has resolved: the message is built and stored. Other handlers can run before
the rest of this handler does. -/
def sendSaved (s : State) (d : SendData) (newId : Id) (tCreate : Time) : State :=
  if d.text = "" then { s with logged := s.logged + 1 }
  else
    { s with messages := s.messages ++
        [{ id := newId, chatId := d.chatId, senderId := d.senderId, text := d.text,
           status := .sent, createdAt := tCreate }] }

/-- The rest of the handler of `message:send`, once the save has resolved:
populate, chat update, emit and `setTimeout`, with no call rejected. -/
def sendCompleted (s : State) (d : SendData) (newId : Id) (tCreate tUpdate : Time) : State :=
  { s with
    chats := updateChat s.chats d.chatId newId tUpdate
    emitted := s.emitted ++
      [⟨.room d.chatId, .messageReceive
        { id := newId, chatId := d.chatId, senderId := d.senderId, text := d.text,
          status := .sent, createdAt := tCreate } (populateSender s.users d.senderId)⟩]
    timers := s.timers ++ [(newId, d.chatId)] }

/-- A chat of users `1` and `2` with id `5`, as stored by the route. -/
def oneChat : List Event :=
  [.createChat ⟨[1, 2], false, none, none⟩ 5 0 none]

/-- The event is a `message:send` cut short after its message was saved: its
populate or its chat update is rejected. -/
def Event.cutShort : Event → Bool
  | .messageSend _ _ _ _ (some .populate) => true
  | .messageSend _ _ _ _ (some .chatUpdate) => true
  | _ => false

/-! ## Status lifecycle -/

/-- Claim C1, evaluated on the code: a message is sent, it is read inside the
delay window, then its delivery confirmation fires. The stored status goes
`sent`, `read`, `delivered`: the confirmation lowers a read message. -/
theorem delivery_confirmation_lowers_read :
    statusOf (run (State.start []) [.messageSend ⟨1, 2, "hello"⟩ 10 0 0 none]).messages 10
        = some .sent ∧
      statusOf (run (State.start [])
        [.messageSend ⟨1, 2, "hello"⟩ 10 0 0 none, .messageRead ⟨1, [10]⟩ false]).messages 10
        = some .read ∧
      statusOf (run (State.start [])
        [.messageSend ⟨1, 2, "hello"⟩ 10 0 0 none, .messageRead ⟨1, [10]⟩ false,
          .timerFire 10 false]).messages 10
        = some .delivered ∧
      Status.delivered.rank < Status.read.rank := by
  decide

theorem updateManyRead_idem (messages : List Message) (chatId : Id) (ids : List Id) :
    updateManyRead (updateManyRead messages chatId ids) chatId ids =
      updateManyRead messages chatId ids := by
  unfold updateManyRead
  rw [List.map_map]
  apply List.map_congr_left
  intro m _
  by_cases h : m.chatId = chatId ∧ m.id ∈ ids <;> simp [h]

/-- Claim C2: handling `message:read` twice in succession with the same request
leaves the stored messages (and the other collections) exactly as handling it
once does, whether or not the update is rejected. -/
theorem messageRead_idempotent (s : State) (d : ReadData) (fault : Bool) :
    (messageRead (messageRead s d fault) d fault).messages = (messageRead s d fault).messages ∧
      (messageRead (messageRead s d fault) d fault).chats = (messageRead s d fault).chats ∧
      (messageRead (messageRead s d fault) d fault).users = (messageRead s d fault).users := by
  cases fault <;> simp [messageRead, updateManyRead_idem]

/-! ## What each handler leaves alone -/

theorem disconnectLoop_messages (sock : SocketId) (now : Time) (fault : Bool)
    (l : List (Id × SocketId)) (s : State) :
    (disconnectLoop sock now fault l s).messages = s.messages := by
  induction l with
  | nil => rfl
  | cons e rest ih =>
    obtain ⟨u, c⟩ := e
    unfold disconnectLoop
    by_cases h : c = sock
    · cases fault <;> simp [h]
    · simp [h, ih]

theorem disconnectLoop_timers (sock : SocketId) (now : Time) (fault : Bool)
    (l : List (Id × SocketId)) (s : State) :
    (disconnectLoop sock now fault l s).timers = s.timers := by
  induction l with
  | nil => rfl
  | cons e rest ih =>
    obtain ⟨u, c⟩ := e
    unfold disconnectLoop
    by_cases h : c = sock
    · cases fault <;> simp [h]
    · simp [h, ih]

theorem disconnectLoop_chats (sock : SocketId) (now : Time) (fault : Bool)
    (l : List (Id × SocketId)) (s : State) :
    (disconnectLoop sock now fault l s).chats = s.chats := by
  induction l with
  | nil => rfl
  | cons e rest ih =>
    obtain ⟨u, c⟩ := e
    unfold disconnectLoop
    by_cases h : c = sock
    · cases fault <;> simp [h]
    · simp [h, ih]

theorem createChat_messages (s : State) (req : ChatRequest) (newId : Id) (now : Time)
    (fault : Option ChatFault) : (createChat s req newId now fault).1.messages = s.messages := by
  unfold createChat
  simp only
  split_ifs <;> first | rfl | (split <;> rfl)

theorem createChat_timers (s : State) (req : ChatRequest) (newId : Id) (now : Time)
    (fault : Option ChatFault) : (createChat s req newId now fault).1.timers = s.timers := by
  unfold createChat
  simp only
  split_ifs <;> first | rfl | (split <;> rfl)

theorem find?_map_keepId (f : Message → Message) (hf : ∀ m, (f m).id = m.id)
    (l : List Message) (k : Id) :
    (l.map f).find? (fun m => m.id = k) = (l.find? (fun m => m.id = k)).map f := by
  induction l with
  | nil => rfl
  | cons a l ih =>
    by_cases h : a.id = k
    · simp [List.find?_cons, hf, h]
    · simp [List.find?_cons, hf, h, ih]

theorem storedWith_step (mid chat : Id) (st : Status) (s : State) (e : Event)
    (hs : StoredWith s mid chat st) (he : ¬ e.touches mid chat) :
    StoredWith (step s e) mid chat st := by
  obtain ⟨m, hm, hc, hst⟩ := hs
  have hid : m.id = mid := by simpa using List.find?_some hm
  cases e with
  | userOnline sock userId fault =>
    refine ⟨m, ?_, hc, hst⟩
    cases fault <;> simpa [step, userOnline] using hm
  | messageSend d newId tCreate tUpdate fault =>
    refine ⟨m, ?_, hc, hst⟩
    simp only [step, messageSend]
    split_ifs <;> simp [List.find?_append, hm]
  | timerFire k fault =>
    have hk : k ≠ mid := he
    simp only [step, timerFire]
    split
    · exact ⟨m, hm, hc, hst⟩
    · cases fault
      · refine ⟨m, ?_, hc, hst⟩
        rename_i t ht
        have ht1 : t.1 = k := by simpa using List.find?_some ht
        simp only [deliveryConfirmation, saveStatus, Bool.false_eq_true, if_false]
        rw [find?_map_keepId _ (by intro x; split_ifs <;> rfl), hm]
        simp [hid, ht1, Ne.symm hk]
      · exact ⟨m, by simpa [deliveryConfirmation] using hm, hc, hst⟩
  | chatJoin sock chatId =>
    refine ⟨m, ?_, hc, hst⟩
    simp only [step, chatJoin]
    split_ifs <;> exact hm
  | messageRead d fault =>
    have hd : ¬ (d.chatId = chat ∧ mid ∈ d.messageIds) := he
    refine ⟨m, ?_, hc, hst⟩
    cases fault
    · simp only [step, messageRead, updateManyRead, Bool.false_eq_true, if_false]
      rw [find?_map_keepId _ (by intro x; split_ifs <;> rfl), hm]
      have hd2 : ¬ (m.chatId = d.chatId ∧ m.id ∈ d.messageIds) := by
        rw [hid, hc]
        exact fun h => hd ⟨h.1.symm, h.2⟩
      simp [hd2]
    · simpa [step, messageRead] using hm
  | typingStart sock d => exact ⟨m, hm, hc, hst⟩
  | typingStop sock d => exact ⟨m, hm, hc, hst⟩
  | disconnect sock now fault =>
    refine ⟨m, ?_, hc, hst⟩
    simp only [step, disconnect, disconnectLoop_messages]
    exact hm
  | createChat req newId now fault =>
    refine ⟨m, ?_, hc, hst⟩
    simp only [step, createChat_messages]
    exact hm

theorem pending_step (mid chat : Id) (s : State) (e : Event)
    (hs : Pending s mid) (he : ¬ e.touches mid chat) : Pending (step s e) mid := by
  obtain ⟨t, ht, htid⟩ := hs
  cases e with
  | userOnline sock userId fault =>
    refine ⟨t, ?_, htid⟩
    cases fault <;> simpa [step, userOnline] using ht
  | messageSend d newId tCreate tUpdate fault =>
    refine ⟨t, ?_, htid⟩
    simp only [step, messageSend]
    split_ifs <;> simp [ht]
  | timerFire k fault =>
    have hk : k ≠ mid := he
    simp only [step, timerFire]
    split
    · exact ⟨t, ht, htid⟩
    · rename_i t2 ht2
      have ht1 : t2.1 = k := by simpa using List.find?_some ht2
      have hne : t ≠ t2 := by
        intro h
        apply hk
        rw [← ht1, ← h, htid]
      refine ⟨t, ?_, htid⟩
      cases fault <;> simp [deliveryConfirmation, List.mem_erase_of_ne hne, ht]
  | chatJoin sock chatId =>
    refine ⟨t, ?_, htid⟩
    simp only [step, chatJoin]
    split_ifs <;> exact ht
  | messageRead d fault =>
    refine ⟨t, ?_, htid⟩
    cases fault <;> simpa [step, messageRead] using ht
  | typingStart sock d => exact ⟨t, ht, htid⟩
  | typingStop sock d => exact ⟨t, ht, htid⟩
  | disconnect sock now fault =>
    refine ⟨t, ?_, htid⟩
    simp only [step, disconnect, disconnectLoop_timers]
    exact ht
  | createChat req newId now fault =>
    refine ⟨t, ?_, htid⟩
    simp only [step, createChat_timers]
    exact ht

theorem storedWith_run (mid chat : Id) (st : Status) (es : List Event) (s : State)
    (hs : StoredWith s mid chat st) (he : ∀ e ∈ es, ¬ e.touches mid chat) :
    StoredWith (run s es) mid chat st := by
  induction es generalizing s with
  | nil => exact hs
  | cons e es ih =>
    exact ih (step s e) (storedWith_step mid chat st s e hs (he e (by simp)))
      (fun x hx => he x (by simp [hx]))

theorem pending_run (mid chat : Id) (es : List Event) (s : State)
    (hs : Pending s mid) (he : ∀ e ∈ es, ¬ e.touches mid chat) :
    Pending (run s es) mid := by
  induction es generalizing s with
  | nil => exact hs
  | cons e es ih =>
    exact ih (step s e) (pending_step mid chat s e hs (he e (by simp)))
      (fun x hx => he x (by simp [hx]))

theorem run_append (s : State) (es fs : List Event) :
    run s (es ++ fs) = run (run s es) fs := by
  induction es generalizing s with
  | nil => rfl
  | cons e es ih => exact ih (step s e)

theorem storedWith_status (s : State) (mid chat : Id) (st : Status)
    (h : StoredWith s mid chat st) : statusOf s.messages mid = some st := by
  obtain ⟨m, hm, _, hst⟩ := h
  simp [statusOf, hm, hst]

theorem messageSend_stored (s : State) (d : SendData) (newId : Id) (tCreate tUpdate : Time)
    (hfresh : ∀ m ∈ s.messages, m.id ≠ newId) (htext : d.text ≠ "") :
    StoredWith (messageSend s d newId tCreate tUpdate none) newId d.chatId .sent ∧
      Pending (messageSend s d newId tCreate tUpdate none) newId := by
  have hnone : s.messages.find? (fun m => m.id = newId) = none := by
    simpa using hfresh
  constructor
  · refine ⟨⟨newId, d.chatId, d.senderId, d.text, .sent, tCreate⟩, ?_, rfl, rfl⟩
    simp [messageSend, htext, List.find?_append, hnone]
  · exact ⟨(newId, d.chatId), by simp [messageSend, htext], rfl⟩

theorem timerFire_stored (s : State) (mid chat : Id) (st : Status)
    (hp : Pending s mid) (hs : StoredWith s mid chat st) :
    StoredWith (timerFire s mid false) mid chat .delivered := by
  obtain ⟨m, hm, hc, _⟩ := hs
  obtain ⟨t, ht, htid⟩ := hp
  have hid : m.id = mid := by simpa using List.find?_some hm
  simp only [timerFire]
  split
  · rename_i hnone
    have := List.find?_eq_none.mp hnone t ht
    simp [htid] at this
  · rename_i t2 ht2
    have ht1 : t2.1 = mid := by simpa using List.find?_some ht2
    refine ⟨{ m with status := .delivered }, ?_, hc, rfl⟩
    simp only [deliveryConfirmation, saveStatus, Bool.false_eq_true, if_false]
    rw [find?_map_keepId _ (by intro x; split_ifs <;> rfl), hm]
    simp [hid, ht1]

theorem messageRead_stored (s : State) (mid chat : Id) (st : Status) (ids : List Id)
    (hin : mid ∈ ids) (hs : StoredWith s mid chat st) :
    StoredWith (messageRead s ⟨chat, ids⟩ false) mid chat .read := by
  obtain ⟨m, hm, hc, _⟩ := hs
  have hid : m.id = mid := by simpa using List.find?_some hm
  refine ⟨{ m with status := .read }, ?_, hc, rfl⟩
  simp only [messageRead, updateManyRead, Bool.false_eq_true, if_false]
  rw [find?_map_keepId _ (by intro x; split_ifs <;> rfl), hm]
  simp [hid, hc, hin]

theorem timerFire_rejected_messages (s : State) (mid : Id) :
    (timerFire s mid true).messages = s.messages := by
  simp only [timerFire]
  split <;> rfl

/-- Claim C3 fails as stated: a `message:read` that names the message inside
the delay window makes its status `read` while its confirmation is still
waiting, and a confirmation whose save is rejected has run and leaves the
status `sent`. -/
theorem status_read_before_confirmation :
    statusOf (run (State.start [])
        [.messageSend ⟨1, 2, "hello"⟩ 10 0 0 none, .messageRead ⟨1, [10]⟩ false]).messages 10
        = some .read ∧
      (run (State.start [])
        [.messageSend ⟨1, 2, "hello"⟩ 10 0 0 none, .messageRead ⟨1, [10]⟩ false]).timers
        = [(10, 1)] ∧
      statusOf (run (State.start [])
        [.messageSend ⟨1, 2, "hello"⟩ 10 0 0 none, .timerFire 10 true]).messages 10
        = some .sent ∧
      (run (State.start [])
        [.messageSend ⟨1, 2, "hello"⟩ 10 0 0 none, .timerFire 10 true]).timers = [] := by
  decide

/-- Claim C3, amended: a message created by `message:send` is stored as `sent`
and stays `sent` through every event that is neither its delivery
confirmation nor a `message:read` naming it; once its delivery confirmation
has run with its save succeeding it is `delivered`, and stays so through such
events, while a confirmation whose save is rejected leaves it `sent`; right
after a `message:read` that names its id together with its chat id it is
`read`, whether that read comes after the confirmation or inside the delay
window. -/
theorem message_lifecycle (s : State) (d : SendData) (newId : Id) (tCreate tUpdate : Time)
    (window later : List Event) (ids : List Id)
    (hfresh : ∀ m ∈ s.messages, m.id ≠ newId) (htext : d.text ≠ "")
    (hwindow : ∀ e ∈ window, ¬ e.touches newId d.chatId)
    (hlater : ∀ e ∈ later, ¬ e.touches newId d.chatId) (hin : newId ∈ ids) :
    statusOf (run s (.messageSend d newId tCreate tUpdate none :: window)).messages newId
        = some .sent ∧
      statusOf (run s (.messageSend d newId tCreate tUpdate none :: window ++
        .timerFire newId false :: later)).messages newId = some .delivered ∧
      statusOf (run s (.messageSend d newId tCreate tUpdate none :: window ++
        .timerFire newId false :: later ++ [.messageRead ⟨d.chatId, ids⟩ false])).messages newId
        = some .read ∧
      statusOf (run s (.messageSend d newId tCreate tUpdate none :: window ++
        [.messageRead ⟨d.chatId, ids⟩ false])).messages newId = some .read ∧
      statusOf (run s (.messageSend d newId tCreate tUpdate none :: window ++
        [.timerFire newId true])).messages newId = some .sent := by
  obtain ⟨h0, p0⟩ := messageSend_stored s d newId tCreate tUpdate hfresh htext
  have h1 := storedWith_run newId d.chatId .sent window _ h0 hwindow
  have p1 := pending_run newId d.chatId window _ p0 hwindow
  have h2 := timerFire_stored _ newId d.chatId .sent p1 h1
  have h3 := storedWith_run newId d.chatId .delivered later _ h2 hlater
  have h4 := messageRead_stored _ newId d.chatId .delivered ids hin h3
  have h5 := messageRead_stored _ newId d.chatId .sent ids hin h1
  refine ⟨storedWith_status _ _ _ _ h1, ?_, ?_, ?_, ?_⟩
  · have := storedWith_status _ _ _ _ h3
    simpa [run, step, run_append] using this
  · have := storedWith_status _ _ _ _ h4
    simpa [run, step, run_append] using this
  · have := storedWith_status _ _ _ _ h5
    simpa [run, step, run_append] using this
  · have := storedWith_status _ _ _ _ h1
    simpa [run, step, run_append, timerFire_rejected_messages] using this

/-- The lifecycle of C3 on a concrete run: another message is sent inside the
window and a socket joins the room after the confirmation. -/
theorem message_lifecycle_witness :
    statusOf (run (State.start []) (.messageSend ⟨1, 2, "hello"⟩ 10 0 0 none ::
        [.messageSend ⟨1, 3, "hi"⟩ 11 1 1 none])).messages 10 = some .sent ∧
      statusOf (run (State.start []) (.messageSend ⟨1, 2, "hello"⟩ 10 0 0 none ::
        [.messageSend ⟨1, 3, "hi"⟩ 11 1 1 none] ++ .timerFire 10 false ::
        [.chatJoin 7 1])).messages 10 = some .delivered ∧
      statusOf (run (State.start []) (.messageSend ⟨1, 2, "hello"⟩ 10 0 0 none ::
        [.messageSend ⟨1, 3, "hi"⟩ 11 1 1 none] ++ .timerFire 10 false ::
        [.chatJoin 7 1] ++ [.messageRead ⟨(⟨1, 2, "hello"⟩ : SendData).chatId, [10]⟩ false])).messages 10
        = some .read ∧
      statusOf (run (State.start []) (.messageSend ⟨1, 2, "hello"⟩ 10 0 0 none ::
        [.messageSend ⟨1, 3, "hi"⟩ 11 1 1 none] ++
        [.messageRead ⟨(⟨1, 2, "hello"⟩ : SendData).chatId, [10]⟩ false])).messages 10
        = some .read ∧
      statusOf (run (State.start []) (.messageSend ⟨1, 2, "hello"⟩ 10 0 0 none ::
        [.messageSend ⟨1, 3, "hi"⟩ 11 1 1 none] ++ [.timerFire 10 true])).messages 10
        = some .sent :=
  message_lifecycle (State.start []) ⟨1, 2, "hello"⟩ 10 0 0
    [.messageSend ⟨1, 3, "hi"⟩ 11 1 1 none] [.chatJoin 7 1] [10]
    (by simp [State.start]) (by decide) (by simp [Event.touches]) (by simp [Event.touches])
    (by simp)

/-! ## Last-message reference -/

theorem lastMessageOf_concat (l : List Message) (a : Message) (c : Id) :
    lastMessageOf (l ++ [a]) c = if a.chatId = c then some a.id else lastMessageOf l c := by
  unfold lastMessageOf
  by_cases h : a.chatId = c
  · simp [List.filter_append, List.filter_cons, h, List.getLast?_append]
  · simp [List.filter_append, List.filter_cons, h]

theorem lastMessageOf_map (f : Message → Message)
    (hf : ∀ m, (f m).id = m.id ∧ (f m).chatId = m.chatId) (l : List Message) (c : Id) :
    lastMessageOf (l.map f) c = lastMessageOf l c := by
  unfold lastMessageOf
  rw [List.filter_map]
  have h1 : ((fun m : Message => decide (m.chatId = c)) ∘ f) =
      fun m : Message => decide (m.chatId = c) := by
    funext m
    simp [(hf m).2]
  rw [h1, List.getLast?_map, Option.map_map]
  congr 1
  funext m
  simp [(hf m).1]

theorem lastMessageOf_none (l : List Message) (c : Id) (h : ∀ m ∈ l, m.chatId ≠ c) :
    lastMessageOf l c = none := by
  unfold lastMessageOf
  have : l.filter (fun m => decide (m.chatId = c)) = [] := by
    simpa [List.filter_eq_nil_iff] using h
  simp [this]

theorem lastMessageOf_split (l : List Message) (c : Id) (h : ∃ m ∈ l, m.chatId = c) :
    ∃ older latest newer, l = older ++ latest :: newer ∧ latest.chatId = c ∧
      (∀ x ∈ newer, x.chatId ≠ c) ∧ lastMessageOf l c = some latest.id := by
  induction l using List.reverseRecOn with
  | nil => simp at h
  | append_singleton l a ih =>
    by_cases ha : a.chatId = c
    · exact ⟨l, a, [], by simp, ha, by simp, by simp [lastMessageOf_concat, ha]⟩
    · have h2 : ∃ m ∈ l, m.chatId = c := by
        obtain ⟨m, hm, hmc⟩ := h
        rcases List.mem_append.mp hm with hm | hm
        · exact ⟨m, hm, hmc⟩
        · simp at hm
          exact absurd (hm ▸ hmc) ha
      obtain ⟨o, lt, n, hl, hlt, hn, hlast⟩ := ih h2
      refine ⟨o, lt, n ++ [a], by simp [hl], hlt, ?_, by simp [lastMessageOf_concat, ha, hlast]⟩
      intro x hx
      rcases List.mem_append.mp hx with hx | hx
      · exact hn x hx
      · simp at hx
        exact hx ▸ ha

theorem createChat_chats (s : State) (req : ChatRequest) (newId : Id) (now : Time) :
    (createChat s req newId now none).1.chats = s.chats ∨
      (createChat s req newId now none).1.chats = s.chats ++
        [{ id := newId, participants := req.participants, isGroup := req.isGroup,
           groupName := req.groupName, groupAvatar := req.groupAvatar,
           lastMessage := none, updatedAt := now }] := by
  unfold createChat
  simp only [reduceCtorEq, if_false]
  split_ifs
  · split
    · exact Or.inl rfl
    · exact Or.inr rfl
  · exact Or.inr rfl

theorem messageSend_ok (s : State) (d : SendData) (newId : Id) (tCreate tUpdate : Time)
    (htext : d.text ≠ "") :
    messageSend s d newId tCreate tUpdate none =
      { s with
        messages := s.messages ++ [⟨newId, d.chatId, d.senderId, d.text, .sent, tCreate⟩]
        chats := updateChat s.chats d.chatId newId tUpdate
        emitted := s.emitted ++
          [⟨.room d.chatId, .messageReceive ⟨newId, d.chatId, d.senderId, d.text, .sent, tCreate⟩
            (populateSender s.users d.senderId)⟩]
        timers := s.timers ++ [(newId, d.chatId)] } := by
  simp [messageSend, htext]

theorem messageSend_rejected (s : State) (d : SendData) (newId : Id) (tCreate tUpdate : Time)
    (htext : d.text = "") :
    messageSend s d newId tCreate tUpdate none = { s with logged := s.logged + 1 } := by
  simp [messageSend, htext]

theorem createChat_chats_any (s : State) (req : ChatRequest) (newId : Id) (now : Time)
    (fault : Option ChatFault) :
    (createChat s req newId now fault).1.chats = s.chats ∨
      (createChat s req newId now fault).1.chats = s.chats ++
        [{ id := newId, participants := req.participants, isGroup := req.isGroup,
           groupName := req.groupName, groupAvatar := req.groupAvatar,
           lastMessage := none, updatedAt := now }] := by
  unfold createChat
  simp only
  split_ifs
  · exact Or.inl rfl
  · split
    · exact Or.inl rfl
    · exact Or.inl rfl
  · split
    · exact Or.inl rfl
    · exact Or.inr rfl
  · split
    · exact Or.inl rfl
    · exact Or.inr rfl
  · exact Or.inl rfl
  · exact Or.inr rfl
  · exact Or.inr rfl

theorem messageSend_phases (s : State) (d : SendData) (newId : Id)
    (tCreate tUpdate : Time) :
    messageSend s d newId tCreate tUpdate none =
      if d.text = "" then sendSaved s d newId tCreate
      else sendCompleted (sendSaved s d newId tCreate) d newId tCreate tUpdate := by
  by_cases h : d.text = "" <;> simp [messageSend, sendSaved, sendCompleted, h]

theorem lastMessageInv_step (s : State) (e : Event) (hf : e.fresh s)
    (hcut : e.cutShort = false) (hs : LastMessageInv s) : LastMessageInv (step s e) := by
  cases e with
  | userOnline sock userId fault =>
    cases fault <;> simpa [step, userOnline, LastMessageInv] using hs
  | messageSend d newId tCreate tUpdate fault =>
    cases fault with
    | some f =>
      cases f with
      | save =>
        have h : step s (.messageSend d newId tCreate tUpdate (some .save)) =
            { s with logged := s.logged + 1 } := by
          simp [step, messageSend]
        rw [h]
        exact hs
      | populate => simp [Event.cutShort] at hcut
      | chatUpdate => simp [Event.cutShort] at hcut
    | none =>
      by_cases ht : d.text = ""
      · simp only [step, messageSend_rejected s d newId tCreate tUpdate ht]
        exact hs
      · simp only [step, messageSend_ok s d newId tCreate tUpdate ht]
        intro c hc
        simp only [updateChat, List.mem_map] at hc
        obtain ⟨c0, hc0, rfl⟩ := hc
        by_cases hid : c0.id = d.chatId
        · simp [hid, lastMessageOf_concat]
        · simp [hid, lastMessageOf_concat, Ne.symm hid, hs c0 hc0]
  | timerFire k fault =>
    cases fault with
    | true =>
      intro c hc
      have hc2 : c ∈ s.chats := by
        simp only [step, timerFire] at hc
        split at hc <;> exact hc
      simp only [step, timerFire_rejected_messages]
      exact hs c hc2
    | false =>
      simp only [step, timerFire]
      split
      · exact hs
      · intro c hc
        simp only [deliveryConfirmation, saveStatus, Bool.false_eq_true, if_false]
        rw [lastMessageOf_map _ (by intro x; split_ifs <;> exact ⟨rfl, rfl⟩)]
        exact hs c hc
  | chatJoin sock chatId =>
    simp only [step, chatJoin]
    split_ifs
    · exact hs
    · exact hs
  | messageRead d fault =>
    cases fault with
    | true => simpa [step, messageRead, LastMessageInv] using hs
    | false =>
      intro c hc
      simp only [step, messageRead, updateManyRead, Bool.false_eq_true, if_false]
      rw [lastMessageOf_map _ (by intro x; split_ifs <;> exact ⟨rfl, rfl⟩)]
      exact hs c hc
  | typingStart sock d => exact hs
  | typingStop sock d => exact hs
  | disconnect sock now fault =>
    intro c hc
    simp only [step, disconnect, disconnectLoop_chats, disconnectLoop_messages] at hc ⊢
    exact hs c hc
  | createChat req newId now fault =>
    intro c hc
    simp only [step, createChat_messages] at hc ⊢
    rcases createChat_chats_any s req newId now fault with h | h
    · rw [h] at hc
      exact hs c hc
    · rw [h] at hc
      rcases List.mem_append.mp hc with hc | hc
      · exact hs c hc
      · simp only [List.mem_singleton] at hc
        subst hc
        exact (lastMessageOf_none _ _ hf.2).symm

theorem lastMessageInv_run (es : List Event) (s : State) (hf : FreshRun s es)
    (hcut : ∀ e ∈ es, e.cutShort = false) (hs : LastMessageInv s) :
    LastMessageInv (run s es) := by
  induction es generalizing s with
  | nil => exact hs
  | cons e es ih =>
    exact ih (step s e) hf.2 (fun x hx => hcut x (by simp [hx]))
      (lastMessageInv_step s e hf.1 (hcut e (by simp)) hs)

/-- Claim C4 fails as stated. First run: chat `5` exists and a send to it is
cut short by a rejected chat update; message `10` is stored in chat `5` and
the chat refers to no message. Second run: two sends to chat `5` overlap, the
saves of messages `10` and `11` resolve in that order and the chat updates in
the other order; the chat refers to message `10` while the most recently
created message of the chat is `11`. -/
theorem lastMessage_left_behind :
    (run (State.start []) (oneChat ++
        [.messageSend ⟨5, 1, "a"⟩ 10 1 1 (some .chatUpdate)])).chats
        = [⟨5, [1, 2], false, none, none, none, 0⟩] ∧
      lastMessageOf (run (State.start []) (oneChat ++
        [.messageSend ⟨5, 1, "a"⟩ 10 1 1 (some .chatUpdate)])).messages 5 = some 10 ∧
      (sendCompleted (sendCompleted (sendSaved (sendSaved (run (State.start []) oneChat)
        ⟨5, 1, "a"⟩ 10 1) ⟨5, 2, "b"⟩ 11 2) ⟨5, 2, "b"⟩ 11 2 3) ⟨5, 1, "a"⟩ 10 1 4).chats
        = [⟨5, [1, 2], false, none, none, some 10, 4⟩] ∧
      (sendCompleted (sendCompleted (sendSaved (sendSaved (run (State.start []) oneChat)
        ⟨5, 1, "a"⟩ 10 1) ⟨5, 2, "b"⟩ 11 2) ⟨5, 2, "b"⟩ 11 2 3) ⟨5, 1, "a"⟩ 10 1 4).messages
        = [⟨10, 5, 1, "a", .sent, 1⟩, ⟨11, 5, 2, "b", .sent, 2⟩] ∧
      lastMessageOf (sendCompleted (sendCompleted (sendSaved (sendSaved
        (run (State.start []) oneChat) ⟨5, 1, "a"⟩ 10 1) ⟨5, 2, "b"⟩ 11 2)
        ⟨5, 2, "b"⟩ 11 2 3) ⟨5, 1, "a"⟩ 10 1 4).messages 5 = some 11 := by
  decide

/-- Claim C4, amended: in every state reached from a freshly started server by
handlers that run one at a time, each to completion, with new generated ids
and with no `message:send` cut short by a rejected populate or chat update
after its message was saved, every stored chat that has at least one message
refers, in `lastMessage`, to the most recently created message of that chat
(the last one in insertion order whose `chatId` is the chat). -/
theorem lastMessage_is_latest (users : List User) (es : List Event)
    (hfresh : FreshRun (State.start users) es) (hcut : ∀ e ∈ es, e.cutShort = false)
    (c : Chat) (hc : c ∈ (run (State.start users) es).chats)
    (hm : ∃ m ∈ (run (State.start users) es).messages, m.chatId = c.id) :
    ∃ older latest newer,
      (run (State.start users) es).messages = older ++ latest :: newer ∧
        latest.chatId = c.id ∧ (∀ x ∈ newer, x.chatId ≠ c.id) ∧
        c.lastMessage = some latest.id := by
  have hinv : LastMessageInv (run (State.start users) es) :=
    lastMessageInv_run es _ hfresh hcut (by intro c hc; simp [State.start] at hc)
  obtain ⟨o, lt, n, h1, h2, h3, h4⟩ := lastMessageOf_split _ c.id hm
  exact ⟨o, lt, n, h1, h2, h3, (hinv c hc).trans h4⟩

theorem twoSends_fresh : FreshRun (State.start []) twoSends := by
  simp [twoSends, FreshRun, Event.fresh, step, State.start, createChat, messageSend,
    updateChat, directMatch]

theorem twoSends_chats : (run (State.start []) twoSends).chats =
    [⟨5, [1, 2], false, none, none, some 11, 2⟩] := by
  decide

/-- The reference of C4 on the run `twoSends`: the chat refers to the second
message, which is the last one stored. -/
theorem lastMessage_is_latest_witness :
    ∃ older latest newer,
      (run (State.start []) twoSends).messages = older ++ latest :: newer ∧
        latest.chatId = (⟨5, [1, 2], false, none, none, some 11, 2⟩ : Chat).id ∧
        (∀ x ∈ newer, x.chatId ≠ (⟨5, [1, 2], false, none, none, some 11, 2⟩ : Chat).id) ∧
        (⟨5, [1, 2], false, none, none, some 11, 2⟩ : Chat).lastMessage = some latest.id :=
  lastMessage_is_latest [] twoSends twoSends_fresh (by decide)
    ⟨5, [1, 2], false, none, none, some 11, 2⟩ (by rw [twoSends_chats]; simp)
    ⟨⟨10, 5, 1, "a", .delivered, 1⟩, by decide, rfl⟩

/-! ## Direct conversations -/

theorem directMatch_swap (a b : Id) (c : Chat) :
    directMatch [b, a] c = directMatch [a, b] c := by
  simp only [directMatch, List.all_cons, List.all_nil, Bool.and_true, List.isEmpty_cons]
  cases decide (a ∈ c.participants) <;> cases decide (b ∈ c.participants) <;> simp

theorem directMatch_of_isDirectOf (a b : Id) (c : Chat) (h : isDirectOf a b c = true) :
    directMatch [a, b] c = true := by
  simp only [isDirectOf, decide_eq_true_eq] at h
  obtain ⟨hg, hp | hp⟩ := h <;> simp [directMatch, hg, hp]

theorem isDirectOf_of_directMatch (a b : Id) (c : Chat) (hab : a ≠ b)
    (h : directMatch [a, b] c = true) : isDirectOf a b c = true := by
  simp only [directMatch, List.all_cons, List.all_nil, Bool.and_true, List.isEmpty_cons,
    Bool.and_eq_true, Bool.not_eq_true', decide_eq_true_eq, Bool.not_false] at h
  obtain ⟨⟨hg, hlen⟩, ha, hb⟩ := h
  simp only [isDirectOf, decide_eq_true_eq]
  refine ⟨hg, ?_⟩
  match hp : c.participants, hlen with
  | [x, y], _ =>
    rw [hp] at ha hb
    simp only [List.mem_cons, List.mem_singleton, List.not_mem_nil, or_false] at ha hb
    rcases ha with ha | ha <;> rcases hb with hb | hb
    · exact absurd (ha.trans hb.symm) hab
    · left; rw [ha, hb]
    · right; rw [ha, hb]
    · exact absurd (ha.trans hb.symm) hab

theorem createChat_cases (s : State) (req : ChatRequest) (newId : Id) (now : Time)
    (fault : Option ChatFault) :
    (createChat s req newId now fault).1.chats = s.chats ∨
      ((createChat s req newId now fault).1.chats = s.chats ++
        [{ id := newId, participants := req.participants, isGroup := req.isGroup,
           groupName := req.groupName, groupAvatar := req.groupAvatar,
           lastMessage := none, updatedAt := now }] ∧
        (req.isGroup = false → s.chats.find? (directMatch req.participants) = none)) := by
  unfold createChat
  simp only
  by_cases hg : req.isGroup = true
  · simp only [hg, Bool.not_true, Bool.false_eq_true, if_false]
    split_ifs
    · exact Or.inl rfl
    · exact Or.inr ⟨rfl, by simp⟩
    · exact Or.inr ⟨rfl, by simp⟩
  · simp only [Bool.not_eq_true] at hg
    simp only [hg, Bool.not_false, if_true]
    split_ifs
    · exact Or.inl rfl
    · split
      · exact Or.inl rfl
      · exact Or.inl rfl
    · split
      · exact Or.inl rfl
      · rename_i hnone
        exact Or.inr ⟨rfl, fun _ => hnone⟩
    · split
      · exact Or.inl rfl
      · rename_i hnone
        exact Or.inr ⟨rfl, fun _ => hnone⟩

theorem directUnique_concat (chats : List Chat) (c : Chat) (h : DirectUnique chats)
    (hnew : c.isGroup = false → chats.find? (directMatch c.participants) = none) :
    DirectUnique (chats ++ [c]) := by
  intro a b
  rw [List.countP_append]
  by_cases hc : isDirectOf a b c = true
  · have hg : c.isGroup = false := by
      simp only [isDirectOf, decide_eq_true_eq] at hc
      exact hc.1
    have hnone := List.find?_eq_none.mp (hnew hg)
    have hzero : chats.countP (isDirectOf a b) = 0 := by
      rw [List.countP_eq_zero]
      intro x hx hxd
      have hm := directMatch_of_isDirectOf a b x hxd
      simp only [isDirectOf, decide_eq_true_eq] at hc
      rcases hc.2 with hp | hp
      · exact hnone x hx (by rw [hp]; exact hm)
      · exact hnone x hx (by rw [hp, directMatch_swap]; exact hm)
    simp [hzero, hc]
  · have := h a b
    simp only [List.countP_cons, List.countP_nil, hc]
    simpa using this

theorem directUnique_updateChat (chats : List Chat) (id lastMessage : Id) (now : Time)
    (h : DirectUnique chats) : DirectUnique (updateChat chats id lastMessage now) := by
  intro a b
  unfold updateChat
  rw [List.countP_map]
  have hfun : (isDirectOf a b ∘ fun c : Chat =>
      if c.id = id then { c with lastMessage := some lastMessage, updatedAt := now } else c)
      = isDirectOf a b := by
    funext c
    simp only [Function.comp]
    split_ifs <;> rfl
  rw [hfun]
  exact h a b

theorem directUnique_step (s : State) (e : Event) (hs : DirectUnique s.chats) :
    DirectUnique (step s e).chats := by
  cases e with
  | userOnline sock userId fault =>
    cases fault <;> simpa [step, userOnline] using hs
  | messageSend d newId tCreate tUpdate fault =>
    simp only [step, messageSend]
    split_ifs
    · exact hs
    · exact hs
    · exact hs
    · exact directUnique_updateChat _ _ _ _ hs
  | timerFire k fault =>
    simp only [step, timerFire]
    split
    · exact hs
    · cases fault <;> simpa [deliveryConfirmation] using hs
  | chatJoin sock chatId =>
    simp only [step, chatJoin]
    split_ifs <;> exact hs
  | messageRead d fault =>
    cases fault <;> simpa [step, messageRead] using hs
  | typingStart sock d => exact hs
  | typingStop sock d => exact hs
  | disconnect sock now fault =>
    simp only [step, disconnect, disconnectLoop_chats]
    exact hs
  | createChat req newId now fault =>
    simp only [step]
    rcases createChat_cases s req newId now fault with h | ⟨h, hnew⟩
    · rw [h]; exact hs
    · rw [h]; exact directUnique_concat _ _ hs hnew

theorem directUnique_run (es : List Event) (s : State) (hs : DirectUnique s.chats) :
    DirectUnique (run s es).chats := by
  induction es generalizing s with
  | nil => exact hs
  | cons e es ih => exact ih (step s e) (directUnique_step s e hs)

theorem createChat_direct_some (s : State) (ps : List Id) (gn ga : Option String)
    (newId : Id) (now : Time) (c : Chat) (h : s.chats.find? (directMatch ps) = some c) :
    createChat s ⟨ps, false, gn, ga⟩ newId now none = (s, .existing c) := by
  simp [createChat, h]

theorem createChat_direct_none (s : State) (ps : List Id) (gn ga : Option String)
    (newId : Id) (now : Time) (h : s.chats.find? (directMatch ps) = none) :
    createChat s ⟨ps, false, gn, ga⟩ newId now none =
      ({ s with chats := s.chats ++ [⟨newId, ps, false, gn, ga, none, now⟩] },
        .created ⟨newId, ps, false, gn, ga, none, now⟩) := by
  simp [createChat, h]

theorem directMatch_pair (a b : Id) (second : List Id)
    (hsecond : second = [a, b] ∨ second = [b, a]) :
    directMatch second = directMatch [a, b] := by
  funext c
  rcases hsecond with h | h
  · rw [h]
  · rw [h, directMatch_swap]

theorem countP_one_of_mem (chats : List Chat) (a b : Id) (c : Chat) (hc : c ∈ chats)
    (hd : isDirectOf a b c = true) (hle : chats.countP (isDirectOf a b) ≤ 1) :
    chats.countP (isDirectOf a b) = 1 := by
  have hpos : 0 < chats.countP (isDirectOf a b) := List.countP_pos_iff.mpr ⟨c, hc, hd⟩
  omega

/-- Claim C5: on any store the server can have reached, a non-group create
request for `[a, b]` followed by one for the same pair in either order is
answered both times with the same conversation, which is stored; afterwards
the store holds at most one non-group conversation of the pair, and exactly
one, the conversation answered, when the two users differ. -/
theorem direct_chat_same_both_times (users : List User) (es : List Event) (a b : Id)
    (second : List Id) (gn ga gn2 ga2 : Option String) (id1 id2 : Id) (now1 now2 : Time)
    (s1 s2 : State) (r1 r2 : ChatResponse)
    (hsecond : second = [a, b] ∨ second = [b, a])
    (h1 : createChat (run (State.start users) es) ⟨[a, b], false, gn, ga⟩ id1 now1 none
      = (s1, r1))
    (h2 : createChat s1 ⟨second, false, gn2, ga2⟩ id2 now2 none = (s2, r2)) :
    ∃ c, (r1 = .existing c ∨ r1 = .created c) ∧ r2 = .existing c ∧ c ∈ s2.chats ∧
      s2.chats.countP (isDirectOf a b) ≤ 1 ∧
      (a ≠ b → isDirectOf a b c = true ∧ s2.chats.countP (isDirectOf a b) = 1) := by
  have hU : DirectUnique (run (State.start users) es).chats :=
    directUnique_run es _ (by intro x y; simp [State.start])
  have hsec := directMatch_pair a b second hsecond
  cases hfind : (run (State.start users) es).chats.find? (directMatch [a, b]) with
  | some c =>
    rw [createChat_direct_some _ _ _ _ _ _ c hfind] at h1
    obtain ⟨rfl, rfl⟩ := Prod.mk.inj h1
    rw [createChat_direct_some _ _ _ _ _ _ c (by rw [hsec]; exact hfind)] at h2
    obtain ⟨rfl, rfl⟩ := Prod.mk.inj h2
    have hc : c ∈ (run (State.start users) es).chats := List.mem_of_find?_eq_some hfind
    have hm : directMatch [a, b] c = true := List.find?_some hfind
    refine ⟨c, Or.inl rfl, rfl, hc, hU a b, fun hab => ?_⟩
    have hd := isDirectOf_of_directMatch a b c hab hm
    exact ⟨hd, countP_one_of_mem _ a b c hc hd (hU a b)⟩
  | none =>
    rw [createChat_direct_none _ _ _ _ _ _ hfind] at h1
    obtain ⟨rfl, rfl⟩ := Prod.mk.inj h1
    have hU1 : DirectUnique ((run (State.start users) es).chats ++
        [(⟨id1, [a, b], false, gn, ga, none, now1⟩ : Chat)]) :=
      directUnique_concat _ _ hU (fun _ => hfind)
    have hfind2 : ((run (State.start users) es).chats ++
        [(⟨id1, [a, b], false, gn, ga, none, now1⟩ : Chat)]).find? (directMatch second)
        = some (⟨id1, [a, b], false, gn, ga, none, now1⟩ : Chat) := by
      rw [hsec, List.find?_append, hfind]
      simp [directMatch]
    rw [createChat_direct_some _ _ _ _ _ _ _ hfind2] at h2
    obtain ⟨rfl, rfl⟩ := Prod.mk.inj h2
    have hd : isDirectOf a b ⟨id1, [a, b], false, gn, ga, none, now1⟩ = true := by
      simp [isDirectOf]
    have hc : (⟨id1, [a, b], false, gn, ga, none, now1⟩ : Chat) ∈
        (run (State.start users) es).chats ++ [⟨id1, [a, b], false, gn, ga, none, now1⟩] := by
      simp
    exact ⟨_, Or.inr rfl, rfl, hc, hU1 a b, fun _ =>
      ⟨hd, countP_one_of_mem _ a b _ hc hd (hU1 a b)⟩⟩

/-- The answers of C5 on a store that already holds a group of the two users:
the pair `1`, `2` is created once, and asking again as `[2, 1]` answers it. -/
theorem direct_chat_same_both_times_witness :
    ∃ c, (ChatResponse.created ⟨6, [1, 2], false, none, none, none, 1⟩ = .existing c ∨
        ChatResponse.created ⟨6, [1, 2], false, none, none, none, 1⟩ = .created c) ∧
      ChatResponse.existing ⟨6, [1, 2], false, none, none, none, 1⟩ = .existing c ∧
      c ∈ (run (State.start []) [.createChat ⟨[1, 2], true, some "g", none⟩ 5 0 none,
        .createChat ⟨[1, 2], false, none, none⟩ 6 1 none]).chats ∧
      (run (State.start []) [.createChat ⟨[1, 2], true, some "g", none⟩ 5 0 none,
        .createChat ⟨[1, 2], false, none, none⟩ 6 1 none]).chats.countP (isDirectOf 1 2) ≤ 1 ∧
      ((1 : Id) ≠ 2 → isDirectOf 1 2 c = true ∧
        (run (State.start []) [.createChat ⟨[1, 2], true, some "g", none⟩ 5 0 none,
          .createChat ⟨[1, 2], false, none, none⟩ 6 1 none]).chats.countP (isDirectOf 1 2) = 1) :=
  direct_chat_same_both_times [] [.createChat ⟨[1, 2], true, some "g", none⟩ 5 0 none] 1 2
    [2, 1] none none none none 6 7 1 2
    (run (State.start []) [.createChat ⟨[1, 2], true, some "g", none⟩ 5 0 none,
        .createChat ⟨[1, 2], false, none, none⟩ 6 1 none])
    (run (State.start []) [.createChat ⟨[1, 2], true, some "g", none⟩ 5 0 none,
        .createChat ⟨[1, 2], false, none, none⟩ 6 1 none])
    (.created ⟨6, [1, 2], false, none, none, none, 1⟩)
    (.existing ⟨6, [1, 2], false, none, none, none, 1⟩)
    (Or.inr rfl) (by decide) (by decide)

/-! ## Presence registry -/

/-- Claim C6, evaluated on the code: socket `7` announces user `1` and then
user `2`, and disconnects at time `100`. The loop of the disconnect handler
stops at the first entry bound to the socket, so after `user:online` for user
`2` on socket `7` followed by the disconnect of socket `7`, user `2` is still
in the registry, still flagged online, and its `lastSeen` is still `0`. -/
theorem disconnect_leaves_second_user_online :
    (run (State.start twoUsers) sharedSocket).onlineUsers = [(2, 7)] ∧
      (run (State.start twoUsers) sharedSocket).users =
        [⟨1, "ada", "a", false, 100⟩, ⟨2, "bob", "b", true, 0⟩] ∧
      (run (State.start twoUsers) sharedSocket).emitted =
        [⟨.all, .userStatus 1 true⟩, ⟨.all, .userStatus 2 true⟩, ⟨.all, .userStatus 1 false⟩] := by
  decide

theorem mapSet_present (m : List (Id × SocketId)) (k : Id) (v : SocketId)
    (h : m.any (fun e => e.1 = k) = true) :
    mapSet m k v = m.map (fun e => if e.1 = k then (k, v) else e) := by
  simp only [mapSet, h, if_true]

theorem mapSet_absent (m : List (Id × SocketId)) (k : Id) (v : SocketId)
    (h : m.any (fun e => e.1 = k) = false) : mapSet m k v = m ++ [(k, v)] := by
  simp only [mapSet, h, Bool.false_eq_true, if_false]

theorem map_replace_absent (m : List (Id × SocketId)) (k : Id) (v : SocketId)
    (h : m.any (fun e => e.1 = k) = false) :
    m.map (fun e => if e.1 = k then (k, v) else e) = m := by
  induction m with
  | nil => rfl
  | cons e m ih =>
    simp only [List.any_cons, Bool.or_eq_false_iff, decide_eq_false_iff_not] at h
    simp [h.1, ih h.2]

theorem any_map_replace (m : List (Id × SocketId)) (k : Id) (v : SocketId) :
    (m.map (fun e => if e.1 = k then (k, v) else e)).any (fun e => e.1 = k) =
      m.any (fun e => e.1 = k) := by
  induction m with
  | nil => rfl
  | cons e m ih =>
    by_cases h : e.1 = k <;> simp [h, ih]

/-- A later `set` for the same key overwrites the earlier one. -/
theorem mapSet_mapSet (m : List (Id × SocketId)) (k : Id) (v1 v2 : SocketId) :
    mapSet (mapSet m k v1) k v2 = mapSet m k v2 := by
  cases h : m.any (fun e => e.1 = k) with
  | true =>
    rw [mapSet_present m k v1 h, mapSet_present m k v2 h,
      mapSet_present _ k v2 (by rw [any_map_replace]; exact h), List.map_map]
    apply List.map_congr_left
    intro e _
    by_cases he : e.1 = k <;> simp [he]
  | false =>
    rw [mapSet_absent m k v1 h, mapSet_absent m k v2 h,
      mapSet_present _ k v2 (by simp), List.map_append, map_replace_absent m k v2 h]
    simp

theorem mapGet_mapSet (m : List (Id × SocketId)) (k : Id) (v : SocketId) :
    mapGet (mapSet m k v) k = some v := by
  cases h : m.any (fun e => e.1 = k) with
  | true =>
    rw [mapSet_present m k v h]
    induction m with
    | nil => simp at h
    | cons e m ih =>
      by_cases he : e.1 = k
      · simp [mapGet, he]
      · have h2 : m.any (fun e => e.1 = k) = true := by simpa [he] using h
        have := ih h2
        simp only [mapGet] at this ⊢
        simpa [List.find?_cons, he] using this
  | false =>
    rw [mapSet_absent m k v h]
    have hnone : m.find? (fun e => decide (e.1 = k)) = none := by
      rw [List.find?_eq_none]
      intro x hx
      have := List.any_eq_false.mp h x hx
      simpa using this
    simp [mapGet, List.find?_append, hnone]

theorem mem_mapSet_same_key (m : List (Id × SocketId)) (k : Id) (v : SocketId)
    (e : Id × SocketId) (he : e ∈ mapSet m k v) (hk : e.1 = k) : e = (k, v) := by
  cases h : m.any (fun e => e.1 = k) with
  | true =>
    rw [mapSet_present m k v h, List.mem_map] at he
    obtain ⟨x, _, hx⟩ := he
    by_cases hxk : x.1 = k
    · simpa [hxk] using hx.symm
    · simp only [hxk, if_false] at hx
      exact absurd (hx ▸ hk) hxk
  | false =>
    rw [mapSet_absent m k v h, List.mem_append] at he
    rcases he with he | he
    · have := List.any_eq_false.mp h e he
      simp [hk] at this
    · simpa using he

theorem filter_key_mapSet (m : List (Id × SocketId)) (k : Id) (v : SocketId)
    (hm : (m.map (·.1)).Nodup) :
    (mapSet m k v).filter (fun e => e.1 = k) = [(k, v)] := by
  cases h : m.any (fun e => e.1 = k) with
  | true =>
    rw [mapSet_present m k v h]
    induction m with
    | nil => simp at h
    | cons e m ih =>
      rw [List.map_cons, List.nodup_cons] at hm
      by_cases he : e.1 = k
      · have habs : m.any (fun e => e.1 = k) = false := by
          rw [List.any_eq_false]
          intro x hx hxk
          simp only [decide_eq_true_eq] at hxk
          exact hm.1 (List.mem_map.mpr ⟨x, hx, hxk.trans he.symm⟩)
        rw [List.map_cons, map_replace_absent m k v habs]
        have hnil : m.filter (fun e => decide (e.1 = k)) = [] := by
          rw [List.filter_eq_nil_iff]
          intro x hx
          exact fun hxk => by simpa [hxk] using List.any_eq_false.mp habs x hx
        simp [he, hnil]
      · have h2 : m.any (fun e => e.1 = k) = true := by simpa [he] using h
        simpa [he] using ih hm.2 h2
  | false =>
    rw [mapSet_absent m k v h]
    have hnil : m.filter (fun e => decide (e.1 = k)) = [] := by
      rw [List.filter_eq_nil_iff]
      intro x hx
      exact fun hxk => by simpa [hxk] using List.any_eq_false.mp h x hx
    simp [List.filter_append, hnil]

theorem userOnline_onlineUsers (s : State) (sock : SocketId) (userId : Id) (fault : Bool) :
    (userOnline s sock userId fault).onlineUsers = mapSet s.onlineUsers userId sock := by
  cases fault <;> rfl

/-- Claim C7: after `user:online` for `u` on socket `c1` and then on socket
`c2`, the registry binds `u` to `c2`, it has exactly one entry for `u`, and
no entry binds `u` to the stale `c1`; this holds whether or not the user
updates are rejected. -/
theorem latest_connection_wins (s : State) (u : Id) (c1 c2 : SocketId) (f1 f2 : Bool)
    (hmap : (s.onlineUsers.map (·.1)).Nodup) (hne : c1 ≠ c2) :
    mapGet (userOnline (userOnline s c1 u f1) c2 u f2).onlineUsers u = some c2 ∧
      (userOnline (userOnline s c1 u f1) c2 u f2).onlineUsers.filter (fun e => e.1 = u)
        = [(u, c2)] ∧
      (u, c1) ∉ (userOnline (userOnline s c1 u f1) c2 u f2).onlineUsers := by
  rw [userOnline_onlineUsers, userOnline_onlineUsers, mapSet_mapSet]
  refine ⟨mapGet_mapSet _ _ _, filter_key_mapSet _ _ _ hmap, fun hmem => ?_⟩
  have := mem_mapSet_same_key _ _ _ _ hmem rfl
  exact hne (Prod.mk.inj this).2

/-- The overwrite of C7 on a registry that already binds another user to the
stale socket: user `2` moves from socket `7` to socket `8`. -/
theorem latest_connection_wins_witness :
    mapGet (userOnline (userOnline (run (State.start twoUsers) [.userOnline 7 1 false])
        7 2 false) 8 2 false).onlineUsers 2 = some 8 ∧
      (userOnline (userOnline (run (State.start twoUsers) [.userOnline 7 1 false])
        7 2 false) 8 2 false).onlineUsers.filter (fun e => e.1 = 2) = [(2, 8)] ∧
      ((2, 7) : Id × SocketId) ∉ (userOnline (userOnline
        (run (State.start twoUsers) [.userOnline 7 1 false]) 7 2 false) 8 2 false).onlineUsers :=
  latest_connection_wins (run (State.start twoUsers) [.userOnline 7 1 false]) 2 7 8 false false
    (by decide) (by decide)

/-! ## Read receipts -/

/-- Claim C8 fails as stated: with message `10` in chat `1` and message `11` in
chat `2`, the request `{chatId: 1, messageIds: [10, 11]}` sets only message
`10` to read, message `11` stays `sent`, yet the receipt carries `[10, 11]`:
the emitted event is not the one whose payload is the affected ids. -/
theorem read_receipt_names_unaffected :
    (matchedByRead (run (State.start []) twoChats).messages 1 [10, 11]).map (·.id) = [10] ∧
      statusOf (messageRead (run (State.start []) twoChats) ⟨1, [10, 11]⟩ false).messages 11
        = some .sent ∧
      (messageRead (run (State.start []) twoChats) ⟨1, [10, 11]⟩ false).emitted =
        (run (State.start []) twoChats).emitted ++ [⟨.room 1, .messagesRead [10, 11]⟩] ∧
      ¬ (messageRead (run (State.start []) twoChats) ⟨1, [10, 11]⟩ false).emitted =
        (run (State.start []) twoChats).emitted ++ [⟨.room 1, .messagesRead
          ((matchedByRead (run (State.start []) twoChats).messages 1 [10, 11]).map (·.id))⟩] := by
  decide

/-- Claim C8, amended: a successful `message:read` emits exactly one
`messages:read` event, to the room of the request, whose payload is the
`messageIds` list of the request as received; the messages it sets to read
are the stored messages selected by the filter, and their ids are exactly
the ids of the payload that name a stored message of that conversation. -/
theorem read_receipt_is_request (s : State) (d : ReadData) :
    (messageRead s d false).emitted =
        s.emitted ++ [⟨.room d.chatId, .messagesRead d.messageIds⟩] ∧
      (messageRead s d false).messages = s.messages.map (fun m =>
        if m ∈ matchedByRead s.messages d.chatId d.messageIds
        then { m with status := .read } else m) ∧
      ∀ i, i ∈ (matchedByRead s.messages d.chatId d.messageIds).map (·.id) ↔
        i ∈ d.messageIds ∧ ∃ m ∈ s.messages, m.id = i ∧ m.chatId = d.chatId := by
  refine ⟨rfl, ?_, ?_⟩
  · simp only [messageRead, Bool.false_eq_true, if_false, updateManyRead]
    apply List.map_congr_left
    intro m hm
    simp [matchedByRead, hm]
  · intro i
    simp only [matchedByRead, List.mem_map, List.mem_filter, decide_eq_true_eq]
    constructor
    · rintro ⟨m, ⟨hm, hc, hi⟩, rfl⟩
      exact ⟨hi, m, hm, rfl, hc⟩
    · rintro ⟨hi, m, hm, rfl, hc⟩
      exact ⟨m, ⟨hm, hc, hi⟩, rfl⟩

/-! ## Typing notifier -/

/-- Claim C9: `typing:start` and `typing:stop` from socket `sock` for room
`d.chatId` each emit one event carrying `d.userId`; a socket receives it
exactly when it has joined the room and is not `sock`, so every other
subscriber receives it and `sock` never does. -/
theorem typing_excludes_sender (s : State) (sock : SocketId) (d : TypingData) :
    (typingStart s sock d).emitted =
        s.emitted ++ [⟨.roomExcept d.chatId sock, .typingDisplay d.userId d.userName⟩] ∧
      (typingStop s sock d).emitted =
        s.emitted ++ [⟨.roomExcept d.chatId sock, .typingHide d.userId⟩] ∧
      (typingStart s sock d).rooms = s.rooms ∧ (typingStop s sock d).rooms = s.rooms ∧
      (∀ t, receives s.rooms t ⟨.roomExcept d.chatId sock, .typingDisplay d.userId d.userName⟩
        = decide (t ≠ sock ∧ (t, d.chatId) ∈ s.rooms)) ∧
      (∀ t, receives s.rooms t ⟨.roomExcept d.chatId sock, .typingHide d.userId⟩
        = decide (t ≠ sock ∧ (t, d.chatId) ∈ s.rooms)) ∧
      receives s.rooms sock ⟨.roomExcept d.chatId sock, .typingDisplay d.userId d.userName⟩
        = false ∧
      receives s.rooms sock ⟨.roomExcept d.chatId sock, .typingHide d.userId⟩ = false := by
  refine ⟨rfl, rfl, rfl, rfl, ?_, ?_, ?_, ?_⟩ <;> simp [receives, Bool.decide_and]

/-! ## Order of the emitted events -/

theorem published_append (trace more : List Emit) (mid room : Id)
    (h : Published trace mid room) : Published (trace ++ more) mid room := by
  obtain ⟨m, sender, hmem, h1, h2, h3⟩ := h
  exact ⟨m, sender, List.mem_append_left _ hmem, h1, h2, h3⟩

theorem deliveredAfterReceive_concat (trace : List Emit) (e : Emit)
    (h : DeliveredAfterReceive trace)
    (he : ∀ mid room, e = ⟨.room room, .messageStatus mid .delivered⟩ →
      Published trace mid room) :
    DeliveredAfterReceive (trace ++ [e]) := by
  intro before after mid room heq
  rcases List.eq_nil_or_concat after with hnil | ⟨init, last, hlast⟩
  · subst hnil
    have := List.append_inj' heq rfl
    obtain ⟨h1, h2⟩ := this
    subst h1
    exact he mid room (by simpa using h2)
  · rw [hlast, List.concat_eq_append, ← List.cons_append, ← List.append_assoc] at heq
    have := List.append_inj' heq rfl
    exact h before init mid room this.1

theorem traceInv_quiet (s t : State) (hs : TraceInv s) (he : t.emitted = s.emitted)
    (ht : ∀ x ∈ t.timers, x ∈ s.timers) : TraceInv t := by
  refine ⟨by rw [he]; exact hs.1, fun x hx => ?_⟩
  rw [he]
  exact hs.2 x (ht x hx)

theorem traceInv_emit (s t : State) (e : Emit) (hs : TraceInv s)
    (he : t.emitted = s.emitted ++ [e]) (hne : e.isStatus = false)
    (ht : ∀ x ∈ t.timers, x ∈ s.timers) : TraceInv t := by
  refine ⟨?_, fun x hx => ?_⟩
  · rw [he]
    refine deliveredAfterReceive_concat _ _ hs.1 (fun mid room h => ?_)
    rw [h] at hne
    simp [Emit.isStatus] at hne
  · rw [he]
    exact published_append _ _ _ _ (hs.2 x (ht x hx))

theorem disconnectLoop_emitted (sock : SocketId) (now : Time) (fault : Bool)
    (l : List (Id × SocketId)) (s : State) :
    (disconnectLoop sock now fault l s).emitted = s.emitted ∨
      ∃ userId, (disconnectLoop sock now fault l s).emitted =
        s.emitted ++ [⟨.all, .userStatus userId false⟩] := by
  induction l with
  | nil => exact Or.inl rfl
  | cons e rest ih =>
    obtain ⟨u, c⟩ := e
    unfold disconnectLoop
    by_cases h : c = sock
    · cases fault
      · exact Or.inr ⟨u, by simp [h]⟩
      · exact Or.inl (by simp [h])
    · simpa [h] using ih

theorem createChat_emitted (s : State) (req : ChatRequest) (newId : Id) (now : Time)
    (fault : Option ChatFault) : (createChat s req newId now fault).1.emitted = s.emitted := by
  unfold createChat
  simp only
  split_ifs <;> first | rfl | (split <;> rfl)

theorem traceInv_step (s : State) (e : Event) (hs : TraceInv s) : TraceInv (step s e) := by
  cases e with
  | userOnline sock userId fault =>
    cases fault
    · exact traceInv_emit s _ ⟨.all, .userStatus userId true⟩ hs rfl rfl (fun x hx => hx)
    · exact traceInv_quiet s _ hs rfl (fun x hx => hx)
  | messageSend d newId tCreate tUpdate fault =>
    simp only [step, messageSend]
    split_ifs
    · exact traceInv_quiet s _ hs rfl (fun x hx => hx)
    · exact traceInv_quiet s _ hs rfl (fun x hx => hx)
    · exact traceInv_quiet s _ hs rfl (fun x hx => hx)
    · refine ⟨deliveredAfterReceive_concat _ _ hs.1 (fun mid room h => ?_), fun x hx => ?_⟩
      · simp at h
      · rcases List.mem_append.mp hx with hx | hx
        · exact published_append _ _ _ _ (hs.2 x hx)
        · simp only [List.mem_singleton] at hx
          subst hx
          exact ⟨_, _, List.mem_append_right _ (List.mem_singleton.mpr rfl), rfl, rfl, rfl⟩
  | timerFire k fault =>
    simp only [step, timerFire]
    split
    · exact hs
    · rename_i t ht
      have htmem : t ∈ s.timers := List.mem_of_find?_eq_some ht
      cases fault
      · refine ⟨deliveredAfterReceive_concat _ _ hs.1 (fun mid room h => ?_), fun x hx => ?_⟩
        · simp only [Emit.mk.injEq, Target.room.injEq, Payload.messageStatus.injEq,
            and_true] at h
          rw [← h.1, ← h.2]
          exact hs.2 t htmem
        · exact published_append _ _ _ _ (hs.2 x (List.mem_of_mem_erase hx))
      · exact traceInv_quiet s _ hs rfl (fun x hx => List.mem_of_mem_erase hx)
  | chatJoin sock chatId =>
    simp only [step, chatJoin]
    split_ifs
    · exact hs
    · exact traceInv_quiet s _ hs rfl (fun x hx => hx)
  | messageRead d fault =>
    cases fault
    · exact traceInv_emit s _ ⟨.room d.chatId, .messagesRead d.messageIds⟩ hs rfl rfl
        (fun x hx => hx)
    · exact traceInv_quiet s _ hs rfl (fun x hx => hx)
  | typingStart sock d =>
    exact traceInv_emit s _ ⟨.roomExcept d.chatId sock, .typingDisplay d.userId d.userName⟩
      hs rfl rfl (fun x hx => hx)
  | typingStop sock d =>
    exact traceInv_emit s _ ⟨.roomExcept d.chatId sock, .typingHide d.userId⟩
      hs rfl rfl (fun x hx => hx)
  | disconnect sock now fault =>
    have htimers : ∀ x ∈ (step s (.disconnect sock now fault)).timers, x ∈ s.timers := by
      intro x hx
      simpa [step, disconnect, disconnectLoop_timers] using hx
    rcases disconnectLoop_emitted sock now fault
      ({ s with rooms := s.rooms.filter fun r => r.1 ≠ sock }).onlineUsers
      { s with rooms := s.rooms.filter fun r => r.1 ≠ sock } with h | ⟨u, h⟩
    · exact traceInv_quiet s _ hs h htimers
    · exact traceInv_emit s _ ⟨.all, .userStatus u false⟩ hs h rfl htimers
  | createChat req newId now fault =>
    exact traceInv_quiet s _ hs (createChat_emitted s req newId now fault)
      (fun x hx => by simpa [step, createChat_timers] using hx)

theorem traceInv_run (es : List Event) (s : State) (hs : TraceInv s) :
    TraceInv (run s es) := by
  induction es generalizing s with
  | nil => exact hs
  | cons e es ih => exact ih (step s e) (traceInv_step s e hs)

/-- Claim C10: in the trace emitted by any run from a freshly started server,
a `message:status` event with status `delivered` for a message, sent to a
room, is preceded by the `message:receive` event that published that message,
with status `sent`, to the same room, which is the room of its chat. -/
theorem delivered_follows_receive (users : List User) (es : List Event)
    (before after : List Emit) (messageId room : Id)
    (h : (run (State.start users) es).emitted =
      before ++ (⟨.room room, .messageStatus messageId .delivered⟩ : Emit) :: after) :
    ∃ m sender, (⟨.room room, .messageReceive m sender⟩ : Emit) ∈ before ∧
      m.id = messageId ∧ m.chatId = room ∧ m.status = .sent := by
  have hinv : TraceInv (run (State.start users) es) :=
    traceInv_run es _ ⟨by
      intro b a mid r hb
      simp [State.start] at hb, by
      intro t ht
      simp [State.start] at ht⟩
  exact hinv.1 before after messageId room h

/-- The order of C10 on a concrete run: message `10` of chat `1` is published,
a typing event follows, then the confirmation of message `10`. -/
theorem delivered_follows_receive_witness :
    ∃ m sender, (⟨.room 1, .messageReceive m sender⟩ : Emit) ∈
        [(⟨.room 1, .messageReceive ⟨10, 1, 2, "a", .sent, 0⟩ none⟩ : Emit),
          ⟨.roomExcept 1 7, .typingHide 2⟩] ∧
      m.id = 10 ∧ m.chatId = 1 ∧ m.status = .sent :=
  delivered_follows_receive []
    [.messageSend ⟨1, 2, "a"⟩ 10 0 0 none, .typingStop 7 ⟨1, 2, "ada"⟩, .timerFire 10 false]
    [⟨.room 1, .messageReceive ⟨10, 1, 2, "a", .sent, 0⟩ none⟩, ⟨.roomExcept 1 7, .typingHide 2⟩]
    [] 10 1 (by decide)

/-! ## Disconnect of a socket bound to one user -/

theorem mem_mapSet (m : List (Id × SocketId)) (k : Id) (v : SocketId) (e : Id × SocketId)
    (he : e ∈ mapSet m k v) : e = (k, v) ∨ e ∈ m := by
  cases h : m.any (fun e => e.1 = k) with
  | true =>
    rw [mapSet_present m k v h, List.mem_map] at he
    obtain ⟨x, hx, hxe⟩ := he
    by_cases hxk : x.1 = k
    · exact Or.inl (by simpa [hxk] using hxe.symm)
    · simp only [hxk, if_false] at hxe
      exact Or.inr (hxe ▸ hx)
  | false =>
    rw [mapSet_absent m k v h, List.mem_append] at he
    rcases he with he | he
    · exact Or.inr he
    · exact Or.inl (by simpa using he)

theorem mapSet_mem (m : List (Id × SocketId)) (k : Id) (v : SocketId) :
    (k, v) ∈ mapSet m k v := by
  have h := mapGet_mapSet m k v
  simp only [mapGet, Option.map_eq_some'] at h
  obtain ⟨e, he, hv⟩ := h
  have hk : e.1 = k := by simpa using List.find?_some he
  have hmem := List.mem_of_find?_eq_some he
  have : e = (k, v) := Prod.ext hk hv
  exact this ▸ hmem

theorem mapGet_mapDelete (m : List (Id × SocketId)) (k : Id) :
    mapGet (mapDelete m k) k = none := by
  simp only [mapGet, mapDelete, Option.map_eq_none', List.find?_eq_none]
  intro x hx
  simpa using (List.mem_filter.mp hx).2

theorem disconnectLoop_first (c : SocketId) (now : Time) (u : Id)
    (l : List (Id × SocketId)) (s : State)
    (hkey : ∀ e ∈ l, e.2 = c → e.1 = u) (hex : ∃ e ∈ l, e.2 = c) :
    disconnectLoop c now false l s =
      { s with
        onlineUsers := mapDelete s.onlineUsers u
        users := updateUser s.users u fun x => { x with online := false, lastSeen := now }
        emitted := s.emitted ++ [⟨.all, .userStatus u false⟩] } := by
  induction l with
  | nil => simp at hex
  | cons e rest ih =>
    obtain ⟨k, v⟩ := e
    unfold disconnectLoop
    by_cases h : v = c
    · have hk : k = u := hkey (k, v) (by simp) h
      simp [h, hk]
    · simp only [h, if_false]
      apply ih
      · exact fun x hx => hkey x (List.mem_cons_of_mem _ hx)
      · obtain ⟨x, hx, hxc⟩ := hex
        rcases List.mem_cons.mp hx with hx | hx
        · rw [hx] at hxc
          exact absurd hxc h
        · exact ⟨x, hx, hxc⟩

/-- The scenario of C6 when socket `c` is bound to no other user: after
`user:online` for `u` on `c` and the disconnect of `c` at time `now`, `u` has
no registry entry, and every stored user with id `u` is offline with
`lastSeen = now`; the other users are as they were. -/
theorem offline_after_disconnect_when_alone (s : State) (u : Id) (c : SocketId) (now : Time)
    (halone : ∀ e ∈ s.onlineUsers, e.2 = c → e.1 = u) :
    mapGet (disconnect (userOnline s c u false) c now false).onlineUsers u = none ∧
      (disconnect (userOnline s c u false) c now false).users =
        s.users.map (fun x => if x.id = u then { x with online := false, lastSeen := now }
          else x) := by
  have hkey : ∀ e ∈ mapSet s.onlineUsers u c, e.2 = c → e.1 = u := by
    intro e he hc
    rcases mem_mapSet _ _ _ _ he with h | h
    · rw [h]
    · exact halone e h hc
  have hloop := disconnectLoop_first c now u (mapSet s.onlineUsers u c)
    { userOnline s c u false with
      rooms := (userOnline s c u false).rooms.filter fun r => r.1 ≠ c }
    hkey ⟨(u, c), mapSet_mem _ _ _, rfl⟩
  have hd : disconnect (userOnline s c u false) c now false =
      disconnectLoop c now false (mapSet s.onlineUsers u c)
        { userOnline s c u false with
          rooms := (userOnline s c u false).rooms.filter fun r => r.1 ≠ c } := rfl
  rw [hd, hloop]
  refine ⟨mapGet_mapDelete _ _, ?_⟩
  simp only [userOnline, Bool.false_eq_true, if_false, updateUser, List.map_map]
  apply List.map_congr_left
  intro x _
  by_cases hx : x.id = u <;> simp [hx]

/-! ## Rejected persistence calls -/

theorem messageSend_fault (s : State) (d : SendData) (newId : Id)
    (tCreate tUpdate : Time) (f : SendFault) :
    messageSend s d newId tCreate tUpdate (some f) =
      { s with
        messages := if d.text = "" ∨ f = .save then s.messages
          else s.messages ++ [⟨newId, d.chatId, d.senderId, d.text, .sent, tCreate⟩]
        logged := s.logged + 1 } := by
  by_cases h : d.text = "" <;> cases f <;> simp [messageSend, h]

/-- Claim C11: when a persistence call of `message:send` is rejected (the
save, the populate or the chat update), nothing is emitted, so neither
`message:receive` nor any error event reaches a client, and no delivery
confirmation is scheduled; with no confirmation waiting for the new id, a
later timer step for it does nothing, so no `message:status` follows. The
rejection is logged and caught. -/
theorem rejected_send_is_silent (s : State) (d : SendData) (newId : Id)
    (tCreate tUpdate : Time) (f : SendFault) (g : Bool)
    (hfresh : ∀ t ∈ s.timers, t.1 ≠ newId) :
    (messageSend s d newId tCreate tUpdate (some f)).emitted = s.emitted ∧
      (messageSend s d newId tCreate tUpdate (some f)).timers = s.timers ∧
      (messageSend s d newId tCreate tUpdate (some f)).logged = s.logged + 1 ∧
      (messageSend s d newId tCreate tUpdate (some f)).unhandled = s.unhandled ∧
      timerFire (messageSend s d newId tCreate tUpdate (some f)) newId g =
        messageSend s d newId tCreate tUpdate (some f) := by
  rw [messageSend_fault]
  refine ⟨rfl, rfl, rfl, rfl, ?_⟩
  have hnone : s.timers.find? (fun t => t.1 = newId) = none := by
    rw [List.find?_eq_none]
    intro t htm
    simpa using hfresh t htm
  simp only [timerFire, hnone]

/-- The silence of C11 on a concrete send whose chat update is rejected. -/
theorem rejected_send_is_silent_witness :
    (messageSend (State.start twoUsers) ⟨1, 2, "hello"⟩ 10 0 0 (some .chatUpdate)).emitted
        = (State.start twoUsers).emitted ∧
      (messageSend (State.start twoUsers) ⟨1, 2, "hello"⟩ 10 0 0 (some .chatUpdate)).timers
        = (State.start twoUsers).timers ∧
      (messageSend (State.start twoUsers) ⟨1, 2, "hello"⟩ 10 0 0 (some .chatUpdate)).logged
        = (State.start twoUsers).logged + 1 ∧
      (messageSend (State.start twoUsers) ⟨1, 2, "hello"⟩ 10 0 0 (some .chatUpdate)).unhandled
        = (State.start twoUsers).unhandled ∧
      timerFire (messageSend (State.start twoUsers) ⟨1, 2, "hello"⟩ 10 0 0 (some .chatUpdate))
          10 false =
        messageSend (State.start twoUsers) ⟨1, 2, "hello"⟩ 10 0 0 (some .chatUpdate) :=
  rejected_send_is_silent (State.start twoUsers) ⟨1, 2, "hello"⟩ 10 0 0 .chatUpdate false
    (by simp [State.start])

/-- Claim C12 fails as stated: a send whose chat update is rejected, and one
whose populate is rejected, leave the message stored. -/
theorem rejected_send_leaves_message :
    (messageSend (State.start twoUsers) ⟨1, 2, "hello"⟩ 10 0 0 (some .chatUpdate)).messages
        = [⟨10, 1, 2, "hello", .sent, 0⟩] ∧
      (messageSend (State.start twoUsers) ⟨1, 2, "hello"⟩ 10 0 0 (some .populate)).messages
        = [⟨10, 1, 2, "hello", .sent, 0⟩] ∧
      ¬ (messageSend (State.start twoUsers) ⟨1, 2, "hello"⟩ 10 0 0 (some .chatUpdate)).messages
        = (State.start twoUsers).messages := by
  decide

/-- Claim C12, amended: a rejected persistence call of `message:send` or
`message:read` never changes a stored chat; a rejected `updateMany` and a
rejected (or invalid) save leave the stored messages as they were; when the
populate or the chat update is rejected, the message saved just before stays
stored, with status `sent`, as the last message of the collection. -/
theorem rejected_call_effect (s : State) (d : SendData) (newId : Id)
    (tCreate tUpdate : Time) (f : SendFault) (r : ReadData) :
    (messageSend s d newId tCreate tUpdate (some f)).chats = s.chats ∧
      (messageSend s d newId tCreate tUpdate (some f)).messages =
        (if d.text = "" ∨ f = .save then s.messages
         else s.messages ++ [⟨newId, d.chatId, d.senderId, d.text, .sent, tCreate⟩]) ∧
      (messageRead s r true).messages = s.messages ∧
      (messageRead s r true).chats = s.chats := by
  rw [messageSend_fault]
  exact ⟨rfl, rfl, rfl, rfl⟩

theorem disconnectLoop_untracked (c : SocketId) (now : Time) (fault : Bool)
    (l : List (Id × SocketId)) (s : State) (h : ∀ e ∈ l, e.2 ≠ c) :
    disconnectLoop c now fault l s = s := by
  induction l with
  | nil => rfl
  | cons e rest ih =>
    obtain ⟨k, v⟩ := e
    have hv : v ≠ c := h (k, v) (by simp)
    unfold disconnectLoop
    simp only [hv, if_false]
    exact ih (fun x hx => h x (List.mem_cons_of_mem _ hx))

/-- Claim C13: the disconnect of a socket that no registry entry maps to
changes nothing but the room table of the transport: the registry, the users
(online flags and `lastSeen`), the emitted events and the counters of logged
and uncaught rejections are as before, whatever the persistence layer would
have answered, since no persistence call is made. -/
theorem disconnect_untracked_noop (s : State) (c : SocketId) (now : Time) (fault : Bool)
    (h : ∀ e ∈ s.onlineUsers, e.2 ≠ c) :
    disconnect s c now fault = { s with rooms := s.rooms.filter fun r => r.1 ≠ c } ∧
      (disconnect s c now fault).onlineUsers = s.onlineUsers ∧
      (disconnect s c now fault).users = s.users ∧
      (disconnect s c now fault).emitted = s.emitted ∧
      (disconnect s c now fault).unhandled = s.unhandled ∧
      (disconnect s c now fault).logged = s.logged := by
  have hd : disconnect s c now fault = { s with rooms := s.rooms.filter fun r => r.1 ≠ c } := by
    simp only [disconnect]
    exact disconnectLoop_untracked c now fault _ _ h
  rw [hd]
  exact ⟨rfl, rfl, rfl, rfl, rfl, rfl⟩

/-- The no-op of C13 when socket `9` disconnects while the registry binds user
`1` to socket `7`. -/
theorem disconnect_untracked_noop_witness :
    disconnect (userOnline (State.start twoUsers) 7 1 false) 9 100 true =
        { userOnline (State.start twoUsers) 7 1 false with
          rooms := (userOnline (State.start twoUsers) 7 1 false).rooms.filter
            fun r => r.1 ≠ 9 } ∧
      (disconnect (userOnline (State.start twoUsers) 7 1 false) 9 100 true).onlineUsers =
        (userOnline (State.start twoUsers) 7 1 false).onlineUsers ∧
      (disconnect (userOnline (State.start twoUsers) 7 1 false) 9 100 true).users =
        (userOnline (State.start twoUsers) 7 1 false).users ∧
      (disconnect (userOnline (State.start twoUsers) 7 1 false) 9 100 true).emitted =
        (userOnline (State.start twoUsers) 7 1 false).emitted ∧
      (disconnect (userOnline (State.start twoUsers) 7 1 false) 9 100 true).unhandled =
        (userOnline (State.start twoUsers) 7 1 false).unhandled ∧
      (disconnect (userOnline (State.start twoUsers) 7 1 false) 9 100 true).logged =
        (userOnline (State.start twoUsers) 7 1 false).logged :=
  disconnect_untracked_noop (userOnline (State.start twoUsers) 7 1 false) 9 100 true
    (by decide)

/-- Claim C14, evaluated on the code: a rejected update in `user:online`, a
rejected save in the delivery-confirmation callback and a rejected update in
the disconnect handler each leave one rejection that nothing caught, while a
rejected call in `message:send` or `message:read` is caught and logged. -/
theorem rejection_escapes_handlers_without_catch :
    (userOnline (State.start twoUsers) 7 1 true).unhandled = 1 ∧
      (run (State.start twoUsers)
        [.messageSend ⟨1, 2, "hello"⟩ 10 0 0 none, .timerFire 10 true]).unhandled = 1 ∧
      (run (State.start twoUsers)
        [.userOnline 7 1 false, .disconnect 7 100 true]).unhandled = 1 ∧
      (messageSend (State.start twoUsers) ⟨1, 2, "hello"⟩ 10 0 0 (some .save)).unhandled = 0 ∧
      (messageSend (State.start twoUsers) ⟨1, 2, "hello"⟩ 10 0 0 (some .save)).logged = 1 ∧
      (messageRead (State.start twoUsers) ⟨1, [10]⟩ true).unhandled = 0 ∧
      (messageRead (State.start twoUsers) ⟨1, [10]⟩ true).logged = 1 := by
  decide

/-! ## Frames -/

theorem messageSend_presence (s : State) (d : SendData) (newId : Id)
    (tCreate tUpdate : Time) (f : Option SendFault) :
    (messageSend s d newId tCreate tUpdate f).users = s.users ∧
      (messageSend s d newId tCreate tUpdate f).onlineUsers = s.onlineUsers := by
  simp only [messageSend]
  split_ifs <;> exact ⟨rfl, rfl⟩

theorem timerFire_presence (s : State) (messageId : Id) (g : Bool) :
    (timerFire s messageId g).users = s.users ∧
      (timerFire s messageId g).onlineUsers = s.onlineUsers := by
  simp only [timerFire]
  split
  · exact ⟨rfl, rfl⟩
  · cases g <;> exact ⟨rfl, rfl⟩

theorem messageRead_presence (s : State) (r : ReadData) (h : Bool) :
    (messageRead s r h).users = s.users ∧
      (messageRead s r h).onlineUsers = s.onlineUsers := by
  cases h <;> exact ⟨rfl, rfl⟩

theorem chatJoin_presence (s : State) (sock : SocketId) (chatId : Id) :
    (chatJoin s sock chatId).users = s.users ∧
      (chatJoin s sock chatId).onlineUsers = s.onlineUsers := by
  simp only [chatJoin]
  split_ifs <;> exact ⟨rfl, rfl⟩

/-- Claim C15: `message:send`, its delivery confirmation, `message:read`,
`typing:start`, `typing:stop` and `chat:join` leave the user collection (so
every online flag and `lastSeen`) and the presence registry as they were,
whether or not a persistence call is rejected. -/
theorem presence_untouched_by_messaging (s : State) (d : SendData) (newId : Id)
    (tCreate tUpdate : Time) (f : Option SendFault) (messageId : Id) (g h : Bool)
    (r : ReadData) (sock : SocketId) (t : TypingData) (chatId : Id) :
    ((messageSend s d newId tCreate tUpdate f).users = s.users ∧
        (messageSend s d newId tCreate tUpdate f).onlineUsers = s.onlineUsers) ∧
      ((timerFire s messageId g).users = s.users ∧
        (timerFire s messageId g).onlineUsers = s.onlineUsers) ∧
      ((messageRead s r h).users = s.users ∧
        (messageRead s r h).onlineUsers = s.onlineUsers) ∧
      ((typingStart s sock t).users = s.users ∧
        (typingStart s sock t).onlineUsers = s.onlineUsers) ∧
      ((typingStop s sock t).users = s.users ∧
        (typingStop s sock t).onlineUsers = s.onlineUsers) ∧
      ((chatJoin s sock chatId).users = s.users ∧
        (chatJoin s sock chatId).onlineUsers = s.onlineUsers) := by
  exact ⟨messageSend_presence s d newId tCreate tUpdate f, timerFire_presence s messageId g,
    messageRead_presence s r h, ⟨rfl, rfl⟩, ⟨rfl, rfl⟩, chatJoin_presence s sock chatId⟩

/-- Claim C17: a successful `message:read` rewrites the message collection
document by document: every field but the status is kept; a message of the
named chat whose id is in the list has status `read` afterwards; every other
message, and every message that was already `read`, is exactly as before.
Users and chats are untouched. -/
theorem markRead_changes_only_named (s : State) (d : ReadData) :
    List.Forall₂ (fun before after : Message =>
        after.id = before.id ∧ after.chatId = before.chatId ∧
        after.senderId = before.senderId ∧ after.text = before.text ∧
        after.createdAt = before.createdAt ∧
        (before.chatId = d.chatId ∧ before.id ∈ d.messageIds → after.status = .read) ∧
        (¬ (before.chatId = d.chatId ∧ before.id ∈ d.messageIds) → after = before) ∧
        (before.status = .read → after = before))
      s.messages (messageRead s d false).messages ∧
      (messageRead s d false).chats = s.chats ∧
      (messageRead s d false).users = s.users := by
  refine ⟨?_, rfl, rfl⟩
  simp only [messageRead, Bool.false_eq_true, if_false, updateManyRead]
  rw [List.forall₂_map_right_iff, List.forall₂_same]
  intro m _
  by_cases hm : m.chatId = d.chatId ∧ m.id ∈ d.messageIds
  · simp only [hm, and_self, if_true, true_and, not_true_eq_false, false_implies,
      forall_const]
    intro hr
    cases m
    simp_all
  · simp [hm]

/-! ## Typing indicator of the client -/

/-- Claim C16 fails as stated: the client receives `typing:display`, no
`typing:hide` arrives, the client types and its own timeout fires; the
indicator is still set, and the timeout has emitted `typing:stop` for the
client's own typing instead. -/
theorem typing_indicator_never_expires :
    (clientRun readerClient [.typingDisplay, .otherListener, .handleTyping "x",
        .typingTimeoutFires, .otherListener]).isTyping = true ∧
      (clientRun readerClient [.typingDisplay, .otherListener, .handleTyping "x",
        .typingTimeoutFires, .otherListener]).typingTimeout = none ∧
      (clientRun readerClient [.typingDisplay, .otherListener, .handleTyping "x",
        .typingTimeoutFires, .otherListener]).sent =
        [.typingStart 5 1 "ada", .typingStop 5 1] := by
  decide

theorem clientStep_isTyping (c : Client) (e : ClientEvent) (he : e ≠ .typingHide)
    (hc : c.isTyping = true) : (clientStep c e).isTyping = true := by
  cases e with
  | typingDisplay => rfl
  | typingHide => exact absurd rfl he
  | otherListener => exact hc
  | handleSelectChat chatId => exact hc
  | handleTyping value =>
    simp only [clientStep]
    split_ifs
    · exact hc
    · split <;> exact hc
  | typingTimeoutFires =>
    simp only [clientStep]
    split <;> exact hc
  | handleSendMessage =>
    simp only [clientStep]
    split_ifs
    · exact hc
    · split <;> exact hc

theorem clientRun_isTyping (es : List ClientEvent) (c : Client)
    (he : ∀ e ∈ es, e ≠ .typingHide) (hc : c.isTyping = true) :
    (clientRun c es).isTyping = true := by
  induction es generalizing c with
  | nil => exact hc
  | cons e es ih =>
    exact ih (clientStep c e) (fun x hx => he x (by simp [hx]))
      (clientStep_isTyping c e (he e (by simp)) hc)

/-- Claim C16, amended: once `typing:display` has set the indicator of the
receiving client, it stays set through every sequence of client events that
holds no `typing:hide`, timeouts included; a `typing:hide` clears it. The
local timeout of the client belongs to its own typing: when it fires it
emits `typing:stop` and leaves the indicator as it is. -/
theorem typing_indicator_cleared_only_by_hide (c : Client) (es : List ClientEvent)
    (he : ∀ e ∈ es, e ≠ .typingHide) :
    (clientRun (clientStep c .typingDisplay) es).isTyping = true ∧
      (clientStep (clientRun (clientStep c .typingDisplay) es) .typingHide).isTyping = false ∧
      (clientStep c .typingTimeoutFires).isTyping = c.isTyping ∧
      (∀ chatId userId, c.typingTimeout = some (chatId, userId) →
        (clientStep c .typingTimeoutFires).sent = c.sent ++ [.typingStop chatId userId]) := by
  refine ⟨clientRun_isTyping es _ he rfl, rfl, ?_, ?_⟩
  · simp only [clientStep]
    split <;> rfl
  · intro chatId userId h
    simp [clientStep, h]

/-- The indicator of C16 on a concrete client: after `typing:display` it
survives the client's own typing and timeout. -/
theorem typing_indicator_cleared_only_by_hide_witness :
    (clientRun (clientStep readerClient .typingDisplay)
        [.handleTyping "x", .typingTimeoutFires]).isTyping = true ∧
      (clientStep (clientRun (clientStep readerClient .typingDisplay)
        [.handleTyping "x", .typingTimeoutFires]) .typingHide).isTyping = false ∧
      (clientStep readerClient .typingTimeoutFires).isTyping = readerClient.isTyping ∧
      (∀ chatId userId, readerClient.typingTimeout = some (chatId, userId) →
        (clientStep readerClient .typingTimeoutFires).sent =
          readerClient.sent ++ [.typingStop chatId userId]) :=
  typing_indicator_cleared_only_by_hide readerClient [.handleTyping "x", .typingTimeoutFires]
    (by decide)

/-! ## Disconnect and the registry -/

/-- Claim C18, evaluated on the code: socket `7` has announced users `1` and
`2`; after its disconnect handler has run the registry still maps user `2`
to socket `7`, so it is not true that no entry maps a user to the socket. -/
theorem disconnect_leaves_entry_of_socket :
    ((2, 7) : Id × SocketId) ∈ (disconnect (run (State.start twoUsers)
        [.userOnline 7 1 false, .userOnline 7 2 false]) 7 100 false).onlineUsers ∧
      ¬ ∀ e ∈ (disconnect (run (State.start twoUsers)
        [.userOnline 7 1 false, .userOnline 7 2 false]) 7 100 false).onlineUsers, e.2 ≠ 7 := by
  decide

theorem disconnectLoop_cases (c : SocketId) (now : Time) (fault : Bool)
    (l : List (Id × SocketId)) (s : State) :
    ((∀ e ∈ l, e.2 ≠ c) ∧ disconnectLoop c now fault l s = s) ∨
      ∃ v, (v, c) ∈ l ∧ disconnectLoop c now fault l s =
        if fault then
          { s with onlineUsers := mapDelete s.onlineUsers v, unhandled := s.unhandled + 1 }
        else
          { s with
            onlineUsers := mapDelete s.onlineUsers v
            users := updateUser s.users v fun x => { x with online := false, lastSeen := now }
            emitted := s.emitted ++ [⟨.all, .userStatus v false⟩] } := by
  induction l with
  | nil => exact Or.inl ⟨by simp, rfl⟩
  | cons e rest ih =>
    obtain ⟨k, v⟩ := e
    by_cases h : v = c
    · refine Or.inr ⟨k, by simp [h], ?_⟩
      unfold disconnectLoop
      cases fault <;> simp [h]
    · rcases ih with ⟨hno, hs⟩ | ⟨w, hw, hs⟩
      · refine Or.inl ⟨?_, ?_⟩
        · intro x hx
          rcases List.mem_cons.mp hx with hx | hx
          · rw [hx]; exact h
          · exact hno x hx
        · unfold disconnectLoop
          simp only [h, if_false]
          exact hs
      · refine Or.inr ⟨w, List.mem_cons_of_mem _ hw, ?_⟩
        unfold disconnectLoop
        simp only [h, if_false]
        exact hs

theorem mapGet_mapDelete_ne (m : List (Id × SocketId)) (k u : Id) (h : k ≠ u) :
    mapGet (mapDelete m k) u = mapGet m u := by
  unfold mapGet mapDelete
  congr 1
  induction m with
  | nil => rfl
  | cons e m ih =>
    by_cases hk : e.1 = k
    · have hu : ¬ e.1 = u := fun hu => h (hk.symm.trans hu)
      rw [List.filter_cons_of_neg (by simpa using hk),
        List.find?_cons_of_neg _ (by simpa using hu)]
      exact ih
    · rw [List.filter_cons_of_pos (by simpa using hk)]
      by_cases hu : e.1 = u
      · rw [List.find?_cons_of_pos _ (by simpa using hu),
          List.find?_cons_of_pos _ (by simpa using hu)]
      · rw [List.find?_cons_of_neg _ (by simpa using hu),
          List.find?_cons_of_neg _ (by simpa using hu)]
        exact ih

theorem filter_updateUser_ne (users : List User) (v u : Id) (f : User → User)
    (hf : ∀ x, (f x).id = x.id) (h : v ≠ u) :
    (updateUser users v f).filter (fun x => x.id = u) = users.filter (fun x => x.id = u) := by
  induction users with
  | nil => rfl
  | cons x rest ih =>
    simp only [updateUser, List.map_cons] at ih ⊢
    by_cases hx : x.id = v
    · have hu : ¬ x.id = u := fun hu => h (hx.symm.trans hu)
      have hu2 : ¬ (f x).id = u := by rw [hf]; exact hu
      rw [if_pos hx, List.filter_cons_of_neg (by simpa using hu2),
        List.filter_cons_of_neg (by simpa using hu)]
      exact ih
    · rw [if_neg hx]
      by_cases hu : x.id = u
      · rw [List.filter_cons_of_pos (by simpa using hu),
          List.filter_cons_of_pos (by simpa using hu), ih]
      · rw [List.filter_cons_of_neg (by simpa using hu),
          List.filter_cons_of_neg (by simpa using hu)]
        exact ih

theorem online_after_updateUser (users : List User) (u : Id) (x : User)
    (hx : x ∈ updateUser users u fun y => { y with online := true }) (hid : x.id = u) :
    x.online = true := by
  simp only [updateUser, List.mem_map] at hx
  obtain ⟨y, _, rfl⟩ := hx
  by_cases hy : y.id = u
  · simp [hy]
  · simp only [hy, if_false] at hid

/-- Claim C19: `u` announces itself on socket `c1` and then on `c2`, and `c1`
disconnects. Afterwards the registry binds `u` to `c2`, every stored user
with id `u` is flagged online and is exactly as before the disconnect (so its
`lastSeen` is unchanged), and the disconnect emitted nothing or one
`user:status` event for a user other than `u`. -/
theorem superseded_disconnect_keeps_user (s before after : State) (u : Id)
    (c1 c2 : SocketId) (now : Time) (fault : Bool) (hne : c1 ≠ c2)
    (hbefore : before = userOnline (userOnline s c1 u false) c2 u false)
    (hafter : after = disconnect before c1 now fault) :
    mapGet after.onlineUsers u = some c2 ∧
      (∀ x ∈ after.users, x.id = u → x.online = true) ∧
      after.users.filter (fun x => x.id = u) = before.users.filter (fun x => x.id = u) ∧
      (after.emitted = before.emitted ∨
        ∃ v, v ≠ u ∧ after.emitted = before.emitted ++ [⟨.all, .userStatus v false⟩]) := by
  have hreg : before.onlineUsers = mapSet s.onlineUsers u c2 := by
    rw [hbefore, userOnline_onlineUsers, userOnline_onlineUsers, mapSet_mapSet]
  have hget : mapGet before.onlineUsers u = some c2 := by
    rw [hreg]; exact mapGet_mapSet _ _ _
  have honline : ∀ x ∈ before.users, x.id = u → x.online = true := by
    intro x hx hid
    rw [hbefore] at hx
    exact online_after_updateUser _ u x hx hid
  have hd : after = disconnectLoop c1 now fault before.onlineUsers
      { before with rooms := before.rooms.filter fun r => r.1 ≠ c1 } := by
    rw [hafter]; rfl
  rcases disconnectLoop_cases c1 now fault before.onlineUsers
      { before with rooms := before.rooms.filter fun r => r.1 ≠ c1 } with ⟨_, hs⟩ | ⟨v, hv, hs⟩
  · rw [hd, hs]
    exact ⟨hget, honline, rfl, Or.inl rfl⟩
  · have hvu : v ≠ u := by
      intro h
      rw [h, hreg] at hv
      have := mem_mapSet_same_key _ _ _ _ hv rfl
      exact hne (Prod.mk.inj this).2
    rw [hd, hs]
    cases fault
    · simp only [Bool.false_eq_true, if_false]
      have hfilter := filter_updateUser_ne before.users v u
        (fun x => { x with online := false, lastSeen := now }) (fun _ => rfl) hvu
      refine ⟨by rw [mapGet_mapDelete_ne _ _ _ hvu]; exact hget, ?_, hfilter,
        Or.inr ⟨v, hvu, rfl⟩⟩
      intro x hx hid
      have hmem : x ∈ (updateUser before.users v
          fun x => { x with online := false, lastSeen := now }).filter (fun x => x.id = u) :=
        List.mem_filter.mpr ⟨hx, by simpa using hid⟩
      rw [hfilter] at hmem
      exact honline x (List.mem_filter.mp hmem).1 hid
    · rw [if_pos rfl]
      exact ⟨by rw [mapGet_mapDelete_ne _ _ _ hvu]; exact hget, honline, rfl, Or.inl rfl⟩

/-- The scenario of C19 with user `2` moving from socket `7` to socket `8`
while user `1` is also bound to socket `7`: the disconnect of socket `7`
clears user `1` and leaves user `2` online on socket `8`. -/
theorem superseded_disconnect_keeps_user_witness :
    mapGet (disconnect (userOnline (userOnline (userOnline (State.start twoUsers) 7 1 false)
        7 2 false) 8 2 false) 7 100 false).onlineUsers 2 = some 8 ∧
      (∀ x ∈ (disconnect (userOnline (userOnline (userOnline (State.start twoUsers) 7 1 false)
        7 2 false) 8 2 false) 7 100 false).users, x.id = 2 → x.online = true) ∧
      (disconnect (userOnline (userOnline (userOnline (State.start twoUsers) 7 1 false)
        7 2 false) 8 2 false) 7 100 false).users.filter (fun x => x.id = 2) =
        (userOnline (userOnline (userOnline (State.start twoUsers) 7 1 false)
          7 2 false) 8 2 false).users.filter (fun x => x.id = 2) ∧
      ((disconnect (userOnline (userOnline (userOnline (State.start twoUsers) 7 1 false)
        7 2 false) 8 2 false) 7 100 false).emitted =
          (userOnline (userOnline (userOnline (State.start twoUsers) 7 1 false)
            7 2 false) 8 2 false).emitted ∨
        ∃ v, v ≠ 2 ∧ (disconnect (userOnline (userOnline (userOnline (State.start twoUsers)
          7 1 false) 7 2 false) 8 2 false) 7 100 false).emitted =
          (userOnline (userOnline (userOnline (State.start twoUsers) 7 1 false)
            7 2 false) 8 2 false).emitted ++ [⟨.all, .userStatus v false⟩]) :=
  superseded_disconnect_keeps_user (userOnline (State.start twoUsers) 7 1 false) _ _ 2 7 8 100
    false (by decide) rfl rfl

/-! ## Online flag and registry -/

theorem mem_mapSet_of_ne (m : List (Id × SocketId)) (k : Id) (v : SocketId)
    (e : Id × SocketId) (he : e ∈ m) (hk : e.1 ≠ k) : e ∈ mapSet m k v := by
  cases h : m.any (fun e => e.1 = k) with
  | true =>
    rw [mapSet_present m k v h, List.mem_map]
    exact ⟨e, he, by simp [hk]⟩
  | false =>
    rw [mapSet_absent m k v h]
    exact List.mem_append_left _ he

theorem createChat_users (s : State) (req : ChatRequest) (newId : Id) (now : Time)
    (fault : Option ChatFault) : (createChat s req newId now fault).1.users = s.users := by
  unfold createChat
  simp only
  split_ifs <;> first | rfl | (split <;> rfl)

theorem createChat_onlineUsers (s : State) (req : ChatRequest) (newId : Id) (now : Time)
    (fault : Option ChatFault) :
    (createChat s req newId now fault).1.onlineUsers = s.onlineUsers := by
  unfold createChat
  simp only
  split_ifs <;> first | rfl | (split <;> rfl)

theorem presenceInv_frame (s t : State) (hs : PresenceInv s) (hu : t.users = s.users)
    (hr : t.onlineUsers = s.onlineUsers) : PresenceInv t := by
  intro x hx
  rw [hu] at hx
  rw [hr]
  exact hs x hx

theorem presenceInv_userOnline (s : State) (sock : SocketId) (u : Id)
    (hs : PresenceInv s) : PresenceInv (userOnline s sock u false) := by
  intro x hx
  simp only [userOnline, Bool.false_eq_true, if_false, updateUser, List.mem_map] at hx ⊢
  obtain ⟨y, hy, rfl⟩ := hx
  by_cases hid : y.id = u
  · simp only [hid, if_true]
    exact ⟨fun _ => ⟨sock, mapSet_mem _ _ _⟩, fun _ => trivial⟩
  · simp only [hid, if_false]
    rw [hs y hy]
    constructor
    · rintro ⟨c, hc⟩
      exact ⟨c, mem_mapSet_of_ne _ _ _ _ hc hid⟩
    · rintro ⟨c, hc⟩
      rcases mem_mapSet _ _ _ _ hc with h | h
      · exact absurd (Prod.mk.inj h).1 hid
      · exact ⟨c, h⟩

theorem presenceInv_disconnect (s : State) (sock : SocketId) (now : Time)
    (hs : PresenceInv s) : PresenceInv (disconnect s sock now false) := by
  have hd : disconnect s sock now false = disconnectLoop sock now false s.onlineUsers
      { s with rooms := s.rooms.filter fun r => r.1 ≠ sock } := rfl
  rcases disconnectLoop_cases sock now false s.onlineUsers
      { s with rooms := s.rooms.filter fun r => r.1 ≠ sock } with ⟨_, h⟩ | ⟨v, _, h⟩
  · rw [hd, h]
    exact presenceInv_frame s _ hs rfl rfl
  · rw [hd, h]
    intro x hx
    simp only [Bool.false_eq_true, if_false, updateUser, List.mem_map, mapDelete,
      List.mem_filter, decide_eq_true_eq] at hx ⊢
    obtain ⟨y, hy, rfl⟩ := hx
    by_cases hid : y.id = v
    · simp only [hid, if_true]
      constructor
      · intro h; exact absurd h (by simp)
      · rintro ⟨c, _, hc⟩
        exact absurd rfl hc
    · simp only [hid, if_false]
      rw [hs y hy]
      constructor
      · rintro ⟨c, hc⟩
        exact ⟨c, hc, hid⟩
      · rintro ⟨c, hc, _⟩
        exact ⟨c, hc⟩

theorem presenceInv_step (s : State) (e : Event) (hok : e.succeeds = true)
    (hs : PresenceInv s) : PresenceInv (step s e) := by
  cases e with
  | userOnline sock userId fault =>
    have hn : fault = false := by simpa [Event.succeeds] using hok
    subst hn
    exact presenceInv_userOnline s sock userId hs
  | messageSend d newId tCreate tUpdate fault =>
    have h := messageSend_presence s d newId tCreate tUpdate fault
    exact presenceInv_frame s _ hs h.1 h.2
  | timerFire k fault =>
    have h := timerFire_presence s k fault
    exact presenceInv_frame s _ hs h.1 h.2
  | chatJoin sock chatId =>
    have h := chatJoin_presence s sock chatId
    exact presenceInv_frame s _ hs h.1 h.2
  | messageRead d fault =>
    have h := messageRead_presence s d fault
    exact presenceInv_frame s _ hs h.1 h.2
  | typingStart sock d => exact presenceInv_frame s _ hs rfl rfl
  | typingStop sock d => exact presenceInv_frame s _ hs rfl rfl
  | disconnect sock now fault =>
    have hn : fault = false := by simpa [Event.succeeds] using hok
    subst hn
    exact presenceInv_disconnect s sock now hs
  | createChat req newId now fault =>
    exact presenceInv_frame s _ hs (createChat_users s req newId now fault)
      (createChat_onlineUsers s req newId now fault)

theorem presenceInv_run (es : List Event) (s : State) (hok : ∀ e ∈ es, e.succeeds = true)
    (hs : PresenceInv s) : PresenceInv (run s es) := by
  induction es generalizing s with
  | nil => exact hs
  | cons e es ih =>
    exact ih (step s e) (fun x hx => hok x (by simp [hx]))
      (presenceInv_step s e (hok e (by simp)) hs)

theorem updateUser_ids (users : List User) (v : Id) (f : User → User)
    (hf : ∀ x, (f x).id = x.id) :
    (updateUser users v f).map (·.id) = users.map (·.id) := by
  simp only [updateUser, List.map_map]
  apply List.map_congr_left
  intro x _
  by_cases h : x.id = v <;> simp [h, hf]

theorem step_user_ids (s : State) (e : Event) :
    (step s e).users.map (·.id) = s.users.map (·.id) := by
  cases e with
  | userOnline sock userId fault =>
    cases fault
    · exact updateUser_ids s.users userId _ (fun _ => rfl)
    · rfl
  | messageSend d newId tCreate tUpdate fault =>
    simp only [step, (messageSend_presence s d newId tCreate tUpdate fault).1]
  | timerFire k fault => simp only [step, (timerFire_presence s k fault).1]
  | chatJoin sock chatId => simp only [step, (chatJoin_presence s sock chatId).1]
  | messageRead d fault => simp only [step, (messageRead_presence s d fault).1]
  | typingStart sock d => rfl
  | typingStop sock d => rfl
  | disconnect sock now fault =>
    have hd : step s (.disconnect sock now fault) = disconnectLoop sock now fault s.onlineUsers
        { s with rooms := s.rooms.filter fun r => r.1 ≠ sock } := rfl
    rcases disconnectLoop_cases sock now fault s.onlineUsers
        { s with rooms := s.rooms.filter fun r => r.1 ≠ sock } with ⟨_, h⟩ | ⟨v, _, h⟩
    · rw [hd, h]
    · rw [hd, h]
      cases fault
      · exact updateUser_ids s.users v _ (fun _ => rfl)
      · rfl
  | createChat req newId now fault =>
    simp only [step, createChat_users]

theorem run_user_ids (es : List Event) (s : State) :
    (run s es).users.map (·.id) = s.users.map (·.id) := by
  induction es generalizing s with
  | nil => rfl
  | cons e es ih => exact (ih (step s e)).trans (step_user_ids s e)

/-- Claim C20: start from an empty registry with every stored user flagged
offline, and handle any sequence of events to completion with no rejected
persistence call. The stored users keep their ids, and a stored user is
flagged online exactly when the registry has an entry for its id. -/
theorem online_flag_matches_registry (users : List User) (es : List Event)
    (hoff : ∀ x ∈ users, x.online = false) (hok : ∀ e ∈ es, e.succeeds = true) :
    (run (State.start users) es).users.map (·.id) = users.map (·.id) ∧
      ∀ x ∈ (run (State.start users) es).users,
        (x.online = true ↔ ∃ c, (x.id, c) ∈ (run (State.start users) es).onlineUsers) := by
  refine ⟨run_user_ids es _, presenceInv_run es _ hok ?_⟩
  intro x hx
  have hx2 : x ∈ users := hx
  simp [State.start, hoff x hx2]

/-- The agreement of C20 after one socket announced users `1` and `2` and
disconnected: user `2` is still flagged online and still registered. -/
theorem online_flag_matches_registry_witness :
    (run (State.start twoUsers) sharedSocket).users.map (·.id) = twoUsers.map (·.id) ∧
      ∀ x ∈ (run (State.start twoUsers) sharedSocket).users,
        (x.online = true ↔
          ∃ c, (x.id, c) ∈ (run (State.start twoUsers) sharedSocket).onlineUsers) :=
  online_flag_matches_registry twoUsers sharedSocket (by decide) (by decide)

/-! ## Existing conversation returned by `POST /api/chats` -/

/-- Claim C21, evaluated on the code: the store holds the direct chat of users
`1` and `2`; a non-group request for `[1, 1]`, and likewise one for `[1]`, is
answered with that chat instead of creating one, although its participants
`{1, 2}` are not the identities `{1}` of the request. -/
theorem repeated_identity_returns_other_chat :
    (createChat (run (State.start []) [.createChat ⟨[1, 2], false, none, none⟩ 5 0 none])
        ⟨[1, 1], false, none, none⟩ 6 1 none).2
        = .existing ⟨5, [1, 2], false, none, none, none, 0⟩ ∧
      (createChat (run (State.start []) [.createChat ⟨[1, 2], false, none, none⟩ 5 0 none])
        ⟨[1], false, none, none⟩ 6 1 none).2
        = .existing ⟨5, [1, 2], false, none, none, none, 0⟩ ∧
      sameIdentities [1, 2] [1, 1] = false ∧ sameIdentities [1, 2] [1] = false := by
  decide

theorem createChat_existing_found (s : State) (req : ChatRequest) (newId : Id) (now : Time)
    (fault : Option ChatFault) (c : Chat)
    (h : (createChat s req newId now fault).2 = .existing c) :
    req.isGroup = false ∧ s.chats.find? (directMatch req.participants) = some c := by
  unfold createChat at h
  simp only at h
  by_cases hg : req.isGroup = true
  · simp only [hg, Bool.not_true, Bool.false_eq_true, if_false] at h
    cases fault with
    | none => simp at h
    | some f => cases f <;> simp at h
  · simp only [Bool.not_eq_true] at hg
    refine ⟨hg, ?_⟩
    simp only [hg, Bool.not_false, if_true] at h
    cases hfind : s.chats.find? (directMatch req.participants) with
    | none =>
      rw [hfind] at h
      cases fault with
      | none => simp at h
      | some f => cases f <;> simp at h
    | some x =>
      rw [hfind] at h
      cases fault with
      | none =>
        simp only [reduceCtorEq, if_false, ChatResponse.existing.injEq] at h
        rw [h]
      | some f =>
        cases f
        · simp at h
        · simp only [reduceCtorEq, if_false, ChatResponse.existing.injEq,
            Option.some.injEq] at h
          rw [h]
        · simp only [reduceCtorEq, if_false, ChatResponse.existing.injEq,
            Option.some.injEq] at h
          rw [h]

/-- What the route guarantees about an existing conversation it returns: it is
stored, it is not a group, it has two participant entries, and every identity
of the request is among them; when the request names two distinct identities
the two sets are equal. -/
theorem existing_chat_covers_request (s : State) (req : ChatRequest) (newId : Id)
    (now : Time) (fault : Option ChatFault) (c : Chat)
    (h : (createChat s req newId now fault).2 = .existing c) :
    c ∈ s.chats ∧ c.isGroup = false ∧ c.participants.length = 2 ∧
      (∀ p ∈ req.participants, p ∈ c.participants) ∧
      (∀ a b, a ∈ req.participants → b ∈ req.participants → a ≠ b →
        sameIdentities c.participants req.participants = true) := by
  obtain ⟨_, hfind⟩ := createChat_existing_found s req newId now fault c h
  have hmem : c ∈ s.chats := List.mem_of_find?_eq_some hfind
  have hm : directMatch req.participants c = true := List.find?_some hfind
  simp only [directMatch, Bool.and_eq_true, Bool.not_eq_true', decide_eq_true_eq,
    List.all_eq_true] at hm
  obtain ⟨⟨⟨hg, hlen⟩, _⟩, hall⟩ := hm
  refine ⟨hmem, hg, hlen, hall, ?_⟩
  intro a b ha hb hab
  have hac := hall a ha
  have hbc := hall b hb
  simp only [sameIdentities, Bool.and_eq_true, List.all_eq_true, decide_eq_true_eq]
  refine ⟨?_, hall⟩
  match hp : c.participants, hlen with
  | [x, y], _ =>
    rw [hp] at hac hbc
    simp only [List.mem_cons, List.mem_singleton, List.not_mem_nil, or_false] at hac hbc
    intro q hq
    simp only [List.mem_cons, List.mem_singleton, List.not_mem_nil, or_false] at hq
    rcases hac with hac | hac <;> rcases hbc with hbc | hbc
    · exact absurd (hac.trans hbc.symm) hab
    · rcases hq with hq | hq
      · rw [hq, ← hac]; exact ha
      · rw [hq, ← hbc]; exact hb
    · rcases hq with hq | hq
      · rw [hq, ← hbc]; exact hb
      · rw [hq, ← hac]; exact ha
    · exact absurd (hac.trans hbc.symm) hab

end Messaging
